import Mathlib

/-!
# MinimalVst3HostForWindows: the SPSC event queue and the audio callback

A shallow embedding of `src/MinimalVst3HostForWindows.cpp`.

* `SpscQueue` (source lines 264-315): the bounded single-producer /
  single-consumer ring buffer, executed sequentially.
* `MySimpleEventList` (source lines 783-824).
* `Vst3Plugin.keyScan` (source lines 680-712).
* `AppMain.audioThreadAppRefill` (source lines 894-958).

Machine integers are natural numbers; `unsigned` arithmetic that can wrap is
written with an explicit `% 2 ^ 32`.  `size_t` is 64 bits wide.
-/

namespace MinimalVst3Host

/-! ## SpscQueue -/

/-- The state of `SpscQueue<T, NumberOfElements>`: the raw storage `items_`
(a slot is `some v` while an object `v` lives in it and `none` otherwise),
and the two indices. -/
structure SpscQueue (T : Type) where
  items_ : Nat → Option T
  readIndex_ : Nat
  writeIndex_ : Nat

namespace SpscQueue

variable {T : Type}

/-- `static constexpr size_t Capacity = NumberOfElements + 1;` -/
def Capacity (NumberOfElements : Nat) : Nat := NumberOfElements + 1

/-- `static constexpr unsigned next(const unsigned i) { return (i + 1) % Capacity; }`
The sum `i + 1` is computed in `unsigned`, hence the `% 2 ^ 32`. -/
def next (NumberOfElements : Nat) (i : Nat) : Nat :=
  ((i + 1) % 2 ^ 32) % Capacity NumberOfElements

/-- The default-constructed queue: both indices are 0, no slot holds an object. -/
def empty : SpscQueue T :=
  { items_ := fun _ => none, readIndex_ := 0, writeIndex_ := 0 }

/-- `bool push(const T &t)`: the returned flag and the queue afterwards. -/
def push (NumberOfElements : Nat) (q : SpscQueue T) (t : T) : Bool × SpscQueue T :=
  let currentWriteIndex := q.writeIndex_
  let nextWriteIndex := next NumberOfElements currentWriteIndex
  if nextWriteIndex = q.readIndex_ then
    (false, q)
  else
    (true, { q with
      items_ := Function.update q.items_ currentWriteIndex (some t)
      writeIndex_ := nextWriteIndex })

/-- `bool pop(T &item)`: the returned flag, the queue afterwards and the
caller's `item` afterwards.  Moving out of a slot without a live object is
undefined in C++; the model leaves `item` as it was there (by
`Inv.head_live` that branch is not taken from a reachable state). -/
def pop (NumberOfElements : Nat) (q : SpscQueue T) (item : T) : Bool × SpscQueue T × T :=
  let currentReadIndex := q.readIndex_
  if currentReadIndex = q.writeIndex_ then
    (false, q, item)
  else
    let p := q.items_ currentReadIndex
    (true,
      { q with
        items_ := Function.update q.items_ currentReadIndex none
        readIndex_ := next NumberOfElements currentReadIndex },
      p.getD item)

/-- One call made on a queue: `push(t)`, or `pop(item)` where `item` is the
value the caller's variable holds before the call. -/
inductive Op (T : Type) where
  | push (t : T) : Op T
  | pop (item : T) : Op T

/-- A queue together with the record of the calls made on it so far. -/
structure Run (T : Type) where
  /-- the queue itself -/
  queue : SpscQueue T
  /-- arguments of the pushes that returned true, oldest first -/
  pushed : List T
  /-- items delivered by the pops that returned true, oldest first -/
  popped : List T
  /-- the flags returned by all calls, oldest first -/
  results : List Bool

/-- The run that has made no call yet on a freshly constructed queue. -/
def Run.init : Run T :=
  { queue := empty, pushed := [], popped := [], results := [] }

/-- Perform one call and record it. -/
def Run.step (NumberOfElements : Nat) (s : Run T) : Op T → Run T
  | Op.push t =>
    let r := push NumberOfElements s.queue t
    { queue := r.2
      pushed := if r.1 then s.pushed ++ [t] else s.pushed
      popped := s.popped
      results := s.results ++ [r.1] }
  | Op.pop item =>
    let r := pop NumberOfElements s.queue item
    { queue := r.2.1
      pushed := s.pushed
      popped := if r.1 then s.popped ++ [r.2.2] else s.popped
      results := s.results ++ [r.1] }

/-- Perform a sequence of calls, one after the other, on a fresh queue. -/
def exec (NumberOfElements : Nat) (ops : List (Op T)) : Run T :=
  ops.foldl (Run.step NumberOfElements) Run.init

/-- Number of pushed-but-not-yet-popped items of a run. -/
def Run.occupancy (s : Run T) : Nat := s.pushed.length - s.popped.length

/-- The pushed-but-not-yet-popped items of a run, oldest first. -/
def Run.pending (s : Run T) : List T := s.pushed.drop s.popped.length

/-- A queue state reachable from the empty queue by push and pop calls. -/
def Reachable (NumberOfElements : Nat) (q : SpscQueue T) : Prop :=
  ∃ ops : List (Op T), (exec NumberOfElements ops).queue = q

/-- Distance from `r` to `w` walking forward around the ring of `n + 1` slots. -/
def ringDist (n r w : Nat) : Nat := if r ≤ w then w - r else w + (n + 1) - r

/-- The slot `k` steps after `r` around the ring of `n + 1` slots. -/
def ringIdx (n r k : Nat) : Nat := if r + k ≤ n then r + k else r + k - (n + 1)

/-- Representation invariant of a run: the indices are in range, the popped
items followed by `content` are the pushed items, and `content` is what the
slots from `readIndex_` up to `writeIndex_` hold; every other slot is dead. -/
structure Inv (n : Nat) (s : Run T) (content : List T) : Prop where
  hr : s.queue.readIndex_ ≤ n
  hw : s.queue.writeIndex_ ≤ n
  hist : s.pushed = s.popped ++ content
  hlen : content.length = ringDist n s.queue.readIndex_ s.queue.writeIndex_
  hslot : ∀ k, k < content.length →
    s.queue.items_ (ringIdx n s.queue.readIndex_ k) = content[k]?
  hdead : ∀ k, content.length ≤ k → k ≤ n →
    s.queue.items_ (ringIdx n s.queue.readIndex_ k) = none

end SpscQueue

/-! ## Steinberg::Vst::Event and MySimpleEventList -/

/-- `Steinberg::Vst::Event` (VST3 SDK): the header fields and the note payload
fields that `keyScan` assigns.  `double` and `float` values are exact
rationals. -/
structure Event where
  busIndex : Int
  sampleOffset : Int
  ppqPosition : ℚ
  flags : Nat
  type : Nat
  channel : Int
  pitch : Int
  velocity : ℚ
  noteId : Int
  deriving DecidableEq

namespace Event

/-- `Event::kNoteOnEvent` of the SDK. -/
def kNoteOnEvent : Nat := 0

/-- `Event::kNoteOffEvent` of the SDK. -/
def kNoteOffEvent : Nat := 1

/-- `Event::kIsLive` of the SDK (`1 << 0`). -/
def kIsLive : Nat := 1

/-- `Steinberg::Vst::Event e = {};` -/
def zero : Event :=
  { busIndex := 0, sampleOffset := 0, ppqPosition := 0, flags := 0, type := 0,
    channel := 0, pitch := 0, velocity := 0, noteId := 0 }

end Event

/-- `Steinberg::tresult`, the two values the host code returns. -/
inductive tresult where
  | kResultOk : tresult
  | kResultFalse : tresult
  deriving DecidableEq

/-- `class MySimpleEventList`: `eventCount_` and the array `events_`. -/
structure MySimpleEventList where
  eventCount_ : Nat
  events_ : Nat → Event

namespace MySimpleEventList

/-- `static constexpr int32_t MaxEvents = 1024;` -/
def MaxEvents : Nat := 1024

/-- The default-constructed list: `eventCount_ = 0`, `events_ = {}`. -/
def init : MySimpleEventList :=
  { eventCount_ := 0, events_ := fun _ => Event.zero }

/-- `void clear() { eventCount_ = 0; }` -/
def clear (l : MySimpleEventList) : MySimpleEventList :=
  { l with eventCount_ := 0 }

/-- `tresult addEvent(Event &e)` -/
def addEvent (l : MySimpleEventList) (e : Event) : tresult × MySimpleEventList :=
  if l.eventCount_ ≥ MaxEvents then
    (tresult.kResultFalse, l)
  else
    (tresult.kResultOk,
      { eventCount_ := l.eventCount_ + 1
        events_ := Function.update l.events_ l.eventCount_ e })

/-- `int32_t getEventCount()` -/
def getEventCount (l : MySimpleEventList) : Nat := l.eventCount_

/-- `tresult getEvent(int32 index, Event &e)`: the result and the caller's `e`. -/
def getEvent (l : MySimpleEventList) (index : Int) (e : Event) : tresult × Event :=
  if index < 0 ∨ index ≥ (l.eventCount_ : Int) then
    (tresult.kResultFalse, e)
  else
    (tresult.kResultOk, l.events_ index.toNat)

/-- The events a reader obtains through `getEventCount` and `getEvent`. -/
def toList (l : MySimpleEventList) : List Event :=
  (List.range l.eventCount_).map l.events_

/-- A sequence of `addEvent` calls, results ignored. -/
def addEvents (l : MySimpleEventList) (es : List Event) : MySimpleEventList :=
  es.foldl (fun acc e => (addEvent acc e).2) l

end MySimpleEventList

/-! ## Vst3Plugin -/

/-- `Steinberg::Vst::AudioBusBuffers`: `channelBuffers32` is `none` for
`nullptr`; otherwise it is the content of the channels the pointers address
(channel, then sample). -/
structure AudioBusBuffers (S : Type) where
  numChannels : Nat
  channelBuffers32 : Option (Nat → Nat → S)

/-- `Steinberg::Vst::ProcessContext`, the fields the host fills in. -/
structure ProcessContext where
  sampleRate : ℚ
  projectTimeMusic : ℚ
  tempo : ℚ

/-- `Steinberg::Vst::ProcessData` as filled in by `audioThreadVstRefill`.  The
two event lists are given by what `getEventCount`/`getEvent` show. -/
structure ProcessData (S : Type) where
  numInputs : Nat
  inputs : Option (AudioBusBuffers S)
  numOutputs : Nat
  outputs : AudioBusBuffers S
  inputEvents : List Event
  outputEvents : List Event
  processContext : ProcessContext
  numSamples : Nat

/-- What one call of `IAudioProcessor::process` does: its return value, the
content of the output channels when it returns, and the events it passes to
`outputEvents->addEvent`, in order. -/
structure ProcessResult (S : Type) where
  result : tresult
  outputs : Nat → Nat → S
  outputEvents : List Event

/-- `struct Key { const int16_t midiNote_; bool status_; }` -/
structure Key where
  midiNote_ : Int
  status_ : Bool
  deriving DecidableEq

/-- `class Vst3Plugin`, the members the event and audio paths use.
`vstAudioProcessor_` is the `process` method of the loaded plug-in, code that
is outside the repository: any function.  A plug-in writes to its output
channels and to its output event list only. -/
structure Vst3Plugin (S : Type) where
  eventQueue_ : SpscQueue Event
  vstAudioProcessor_ : ProcessData S → ProcessResult S
  keyMap : List (Nat × Key)
  isEffect_ : Bool
  hasEventOutput_ : Bool

namespace Vst3Plugin

variable {S : Type}

/-- `using EventQueue = SpscQueue<Steinberg::Vst::Event, 4096>;` -/
def EventQueueSize : Nat := 4096

/-- `VK_ESCAPE` of the Windows headers. -/
def VK_ESCAPE : Nat := 0x1B

/-- `VK_OEM_COMMA` of the Windows headers. -/
def VK_OEM_COMMA : Nat := 0xBC

/-- The initial `keyMap`, in the iteration order of `std::map<int, Key>`
(increasing key code); every `status_` is false. -/
def initialKeyMap : List (Nat × Key) :=
  [ (50, ⟨61, false⟩), (51, ⟨63, false⟩), (53, ⟨66, false⟩), (54, ⟨68, false⟩),
    (55, ⟨70, false⟩),
    (66, ⟨55, false⟩), (67, ⟨52, false⟩), (68, ⟨51, false⟩), (69, ⟨64, false⟩),
    (71, ⟨54, false⟩), (72, ⟨56, false⟩), (73, ⟨72, false⟩), (74, ⟨58, false⟩),
    (77, ⟨59, false⟩), (78, ⟨57, false⟩), (81, ⟨60, false⟩), (82, ⟨65, false⟩),
    (83, ⟨49, false⟩), (84, ⟨67, false⟩), (85, ⟨71, false⟩), (86, ⟨53, false⟩),
    (87, ⟨62, false⟩), (88, ⟨50, false⟩), (89, ⟨69, false⟩), (90, ⟨48, false⟩),
    (VK_OEM_COMMA, ⟨60, false⟩) ]

/-- `(GetKeyState(vk) & 0x8000) != 0`, where `state` is the bit pattern of the
value `GetKeyState` returned. -/
def keyDown (state : Nat) : Bool := decide (state &&& 0x8000 ≠ 0)

/-- The event `keyScan` builds for a key whose `status_` has just been set. -/
def keyEvent (key : Key) : Event :=
  if key.status_ then
    { busIndex := 0, sampleOffset := 0, ppqPosition := 0, flags := Event.kIsLive
      type := Event.kNoteOnEvent
      channel := 0, pitch := key.midiNote_, velocity := 1, noteId := key.midiNote_ }
  else
    { busIndex := 0, sampleOffset := 0, ppqPosition := 0, flags := Event.kIsLive
      type := Event.kNoteOffEvent
      channel := 0, pitch := key.midiNote_, velocity := 0, noteId := key.midiNote_ }

/-- What a run of the `keyScan` loop has produced: the key table entries
visited so far, the queue, and the events handed to `eventQueue_.push` (each
is also reported by `MY_TRACE`), in order. -/
structure ScanState where
  keys : List (Nat × Key)
  queue : SpscQueue Event
  emitted : List Event

/-- The body of the loop `for (auto &[vk, key] : keyMap)` for one entry. -/
def scanKey (GetKeyState : Nat → Nat) (st : ScanState) (entry : Nat × Key) : ScanState :=
  let newStatus := keyDown (GetKeyState entry.1)
  if entry.2.status_ ≠ newStatus then
    let key : Key := { entry.2 with status_ := newStatus }
    let e := keyEvent key
    { keys := st.keys ++ [(entry.1, key)]
      queue := (SpscQueue.push EventQueueSize st.queue e).2
      emitted := st.emitted ++ [e] }
  else
    { st with keys := st.keys ++ [entry] }

/-- The result of `keyScan`: the plug-in afterwards, whether
`PostQuitMessage(0)` was called, and the events handed to `push`. -/
structure ScanResult (S : Type) where
  plugin : Vst3Plugin S
  quit : Bool
  emitted : List Event

/-- `void keyScan()`; `GetKeyState` is the Win32 poll. -/
def keyScan (GetKeyState : Nat → Nat) (p : Vst3Plugin S) : ScanResult S :=
  let st := p.keyMap.foldl (scanKey GetKeyState)
    { keys := [], queue := p.eventQueue_, emitted := [] }
  { plugin := { p with keyMap := st.keys, eventQueue_ := st.queue }
    quit := keyDown (GetKeyState VK_ESCAPE)
    emitted := st.emitted }

/-- `keyScan` called once per poll, the polls in order; the events handed to
`push` over all polls are collected. -/
def keyScans : List (Nat → Nat) → Vst3Plugin S → Vst3Plugin S × List Event
  | [], p => (p, [])
  | poll :: polls, p =>
    let r := keyScan poll p
    let rest := keyScans polls r.plugin
    (rest.1, r.emitted ++ rest.2)

/-- The key table `base` with the status of every key taken from `s`. -/
def setStatus (s : Nat → Bool) (base : List (Nat × Key)) : List (Nat × Key) :=
  base.map (fun entry => (entry.1, ({ entry.2 with status_ := s entry.1 } : Key)))

/-- The event, if any, that `keyScan` emits for `entry` when the polled status
of its key is `newStatus`. -/
def edgeEvent (newStatus : Bool) (entry : Nat × Key) : Option Event :=
  if entry.2.status_ ≠ newStatus then
    some (keyEvent { entry.2 with status_ := newStatus })
  else none

/-- The queue after the events `es` were handed to `push`, one after the
other. -/
def pushAll (q : SpscQueue Event) (es : List Event) : SpscQueue Event :=
  es.foldl (fun q e => (SpscQueue.push EventQueueSize q e).2) q

/-- The plug-in `p` with the return value of its `process` replaced by `res`
(outputs and events as before). -/
def withResult (res : ProcessData S → tresult) (p : Vst3Plugin S) : Vst3Plugin S :=
  { p with
    vstAudioProcessor_ := fun pd => { p.vstAudioProcessor_ pd with result := res pd } }

/-- `void audioThreadVstRefill(...)`: builds the `ProcessData` and calls
`vstAudioProcessor_->process`, whose return value is discarded.  The spans are
given by their size and by the content of the channels they point to.
Returns what the call left in the output channels and the events it added. -/
def audioThreadVstRefill (p : Vst3Plugin S)
    (vstInSize : Nat) (vstInChannels : Nat → Nat → S)
    (vstOutSize : Nat) (vstOutChannels : Nat → Nat → S)
    (nSamples : Nat) (sampleRate tempo : ℚ)
    (inputEvents outputEvents : MySimpleEventList) (ppqPosition : ℚ) :
    (Nat → Nat → S) × List Event :=
  let inBus : AudioBusBuffers S :=
    { numChannels := if p.isEffect_ then vstInSize else 0
      channelBuffers32 := if p.isEffect_ then some vstInChannels else none }
  let outBus : AudioBusBuffers S :=
    { numChannels := vstOutSize, channelBuffers32 := some vstOutChannels }
  let context : ProcessContext :=
    { sampleRate := sampleRate, projectTimeMusic := ppqPosition, tempo := tempo }
  let vstProcessData : ProcessData S :=
    { numInputs := if inBus.numChannels > 0 then 1 else 0
      inputs := if inBus.numChannels > 0 then some inBus else none
      numOutputs := 1
      outputs := outBus
      inputEvents := inputEvents.toList
      outputEvents := outputEvents.toList
      processContext := context
      numSamples := nSamples }
  let r := p.vstAudioProcessor_ vstProcessData
  (r.outputs, r.outputEvents)

end Vst3Plugin

/-! ## AppMain -/

/-- `class AppMain`, the members `audioThreadAppRefill` uses.  The two
ping-pong audio buffers and the two event lists are indexed by `Fin 2`; the
vectors `inpPtrs_`/`outPtrs_` only carry the channel pointers of one stage to
the plug-in and are represented by `channelView`. -/
structure AppMain (S : Type) where
  tempo_ : ℚ
  currentPpq_ : ℚ
  maxSamples_ : Nat
  maxChannels_ : Nat
  vst3Plugins_ : List (Vst3Plugin S)
  pingPongAudioBuffers_ : Fin 2 → Nat → S
  pingPongEventLists_ : Fin 2 → MySimpleEventList

namespace AppMain

variable {S : Type}

/-- The loop `while (vst3Plugin->getEventQueue().pop(e)) { inpEvents->addEvent(e); }`
run for at most `fuel` evaluations of its condition; `none` when they do not
suffice. -/
def drainQueue : Nat → SpscQueue Event → Event → MySimpleEventList →
    Option (SpscQueue Event × MySimpleEventList)
  | 0, _, _, _ => none
  | fuel + 1, q, e, l =>
    let r := SpscQueue.pop Vst3Plugin.EventQueueSize q e
    if r.1 then drainQueue fuel r.2.1 r.2.2 (l.addEvent r.2.2).2
    else some (r.2.1, l)

/-- The loop "Retrieve events from UI" over `vst3Plugins_`, in order. -/
def drainPlugins (fuel : Nat) : List (Vst3Plugin S) → MySimpleEventList →
    Option (List (Vst3Plugin S) × MySimpleEventList)
  | [], l => some ([], l)
  | p :: ps, l =>
    match drainQueue fuel p.eventQueue_ Event.zero l with
    | none => none
    | some (q, l1) =>
      match drainPlugins fuel ps l1 with
      | none => none
      | some (ps1, l2) => some ({ p with eventQueue_ := q } :: ps1, l2)

/-- The local variables of `audioThreadAppRefill` during the chain loop,
together with the buffers and event lists they point into: `inpEvents`,
`outEvents`, `inpPtr` and `outPtr` are the index of the array element the
pointer addresses. -/
structure ChainState (S : Type) where
  pingPongAudioBuffers_ : Fin 2 → Nat → S
  pingPongEventLists_ : Fin 2 → MySimpleEventList
  inpEvents : Fin 2
  outEvents : Fin 2
  inpPtr : Fin 2
  outPtr : Fin 2

/-- `const unsigned bufSize = nSamples * nChannels;` -/
def bufSize (nSamples nChannels : Nat) : Nat := (nSamples * nChannels) % 2 ^ 32

/-- The offset `iChannel * nSamples` (an `unsigned` product) of a channel
pointer `ptr + iChannel * nSamples`. -/
def chanOffset (nSamples iChannel : Nat) : Nat := (iChannel * nSamples) % 2 ^ 32

/-- The channels addressed by the pointers `buf + iChannel * nSamples`. -/
def channelView (buf : Nat → S) (nSamples : Nat) : Nat → Nat → S :=
  fun iChannel i => buf (chanOffset nSamples iChannel + i)

/-- The plug-in's writes to the output channels: sample `i` of channel
`iChannel` goes to `outPtrs_[iChannel][i]`, for the `nChannels` channels whose
pointer the stage has set and the `nSamples` samples of the block. -/
def storeChannels (nChannels nSamples : Nat) (rendered : Nat → Nat → S) (buf : Nat → S) :
    Nat → S :=
  (List.range nChannels).foldl
    (fun b iChannel =>
      (List.range nSamples).foldl
        (fun b i => Function.update b (chanOffset nSamples iChannel + i) (rendered iChannel i))
        b)
    buf

/-- The call `vst3Plugin->audioThreadVstRefill(std::span(inpPtrs_),
std::span(outPtrs_), nSamples, sampleRate, tempo_, inpEvents, outEvents,
currentPpq_)` of one stage (both spans have `maxChannels_` entries): what the
unit left in its output channels and the events it added. -/
def renderCall (app : AppMain S) (nSamples : Nat) (sampleRate : ℚ)
    (st : ChainState S) (p : Vst3Plugin S) : (Nat → Nat → S) × List Event :=
  p.audioThreadVstRefill
    app.maxChannels_ (channelView (st.pingPongAudioBuffers_ st.inpPtr) nSamples)
    app.maxChannels_ (channelView (st.pingPongAudioBuffers_ st.outPtr) nSamples)
    nSamples sampleRate app.tempo_
    (st.pingPongEventLists_ st.inpEvents) (st.pingPongEventLists_ st.outEvents)
    app.currentPpq_

/-- The render call of one stage and its effect on the output buffer and on
the outbound event list. -/
def renderStage (app : AppMain S) (nChannels nSamples : Nat) (sampleRate : ℚ)
    (st : ChainState S) (p : Vst3Plugin S) : ChainState S :=
  let r := renderCall app nSamples sampleRate st p
  { st with
    pingPongAudioBuffers_ :=
      Function.update st.pingPongAudioBuffers_ st.outPtr
        (storeChannels nChannels nSamples r.1 (st.pingPongAudioBuffers_ st.outPtr))
    pingPongEventLists_ :=
      Function.update st.pingPongEventLists_ st.outEvents
        ((st.pingPongEventLists_ st.outEvents).addEvents r.2) }

/-- `if (vst3Plugin->hasEventOutput()) { inpEvents->clear(); std::swap(inpEvents, outEvents); }` -/
def swapEvents (st : ChainState S) (p : Vst3Plugin S) : ChainState S :=
  if p.hasEventOutput_ then
    { st with
      pingPongEventLists_ :=
        Function.update st.pingPongEventLists_ st.inpEvents
          (st.pingPongEventLists_ st.inpEvents).clear
      inpEvents := st.outEvents
      outEvents := st.inpEvents }
  else st

/-- `for (unsigned i = 0; i < bufSize; ++i) { outPtr[i] += inpPtr[i]; }` -/
def addInput [Add S] (n : Nat) (inpPtr outPtr : Fin 2) (bufs : Fin 2 → Nat → S) :
    Fin 2 → Nat → S :=
  (List.range n).foldl
    (fun b i => Function.update b outPtr (Function.update (b outPtr) i (b outPtr i + b inpPtr i)))
    bufs

/-- `if (!vst3Plugin->isEffect()) { ... }` followed by `std::swap(inpPtr, outPtr);` -/
def mixAndSwap [Add S] (nChannels nSamples : Nat) (st : ChainState S) (p : Vst3Plugin S) :
    ChainState S :=
  let bufs :=
    if ¬ p.isEffect_ then
      addInput (bufSize nSamples nChannels) st.inpPtr st.outPtr st.pingPongAudioBuffers_
    else st.pingPongAudioBuffers_
  { st with pingPongAudioBuffers_ := bufs, inpPtr := st.outPtr, outPtr := st.inpPtr }

/-- One iteration of the loop "Process plugins in series". -/
def stage [Add S] (app : AppMain S) (nChannels nSamples : Nat) (sampleRate : ℚ)
    (st : ChainState S) (p : Vst3Plugin S) : ChainState S :=
  mixAndSwap nChannels nSamples
    (swapEvents (renderStage app nChannels nSamples sampleRate st p) p) p

/-- `memset(inpPtr, 0, sizeof(inpPtr[0]) * bufSize);` -/
def zeroFill [Zero S] (n : Nat) (buf : Nat → S) : Nat → S :=
  fun i => if i < n then 0 else buf i

/-- The state in which the chain loop starts when the drain loop has left the
plug-ins `plugins` and the inbound list `inpList`: both lists were cleared
before the drain, `inpEvents`/`inpPtr` address element 0 and
`outEvents`/`outPtr` element 1, and the input buffer is zero-filled. -/
def entryState [Zero S] (app : AppMain S) (nChannels nSamples : Nat)
    (inpList : MySimpleEventList) : ChainState S :=
  { pingPongAudioBuffers_ :=
      Function.update app.pingPongAudioBuffers_ 0
        (zeroFill (bufSize nSamples nChannels) (app.pingPongAudioBuffers_ 0))
    pingPongEventLists_ :=
      Function.update
        (Function.update app.pingPongEventLists_ 0 inpList)
        1 (app.pingPongEventLists_ 1).clear
    inpEvents := 0
    outEvents := 1
    inpPtr := 0
    outPtr := 1 }

/-- The chain loop run over the first `k` plug-ins: the state in which stage
`k` starts (for `k` the length of the chain: the state after the loop). -/
def chainStateAt [Add S] (app : AppMain S) (nChannels nSamples : Nat) (sampleRate : ℚ)
    (plugins : List (Vst3Plugin S)) (st0 : ChainState S) (k : Nat) : ChainState S :=
  (plugins.take k).foldl (stage app nChannels nSamples sampleRate) st0

/-- The loop "Write the final result into the WASAPI interleaved buffer". -/
def interleave (nChannels nSamples : Nat) (src : Nat → S) (dest : Nat → S) : Nat → S :=
  (List.range nSamples).foldl
    (fun d iSample =>
      (List.range nChannels).foldl
        (fun d iChannel =>
          Function.update d ((iSample * nChannels + iChannel) % 2 ^ 32)
            (src ((iChannel * nSamples + iSample) % 2 ^ 32)))
        d)
    dest

/-- `currentPpq_ += nSamples * tempo_ / 60.0 / sampleRate;` -/
def advancePpq (currentPpq tempo : ℚ) (nSamples : Nat) (sampleRate : ℚ) : ℚ :=
  currentPpq + (nSamples : ℚ) * tempo / 60 / sampleRate

/-- `void audioThreadAppRefill(wasapiInterleavedBuf, nChannels, nSamples, sampleRate)`:
the application afterwards and the destination buffer afterwards; `none` when
`fuel` evaluations of a drain loop condition do not suffice. -/
def audioThreadAppRefill [Zero S] [Add S] (fuel : Nat) (app : AppMain S)
    (wasapiInterleavedBuf : Nat → S) (nChannels nSamples : Nat) (sampleRate : ℚ) :
    Option (AppMain S × (Nat → S)) :=
  match drainPlugins fuel app.vst3Plugins_ (app.pingPongEventLists_ 0).clear with
  | none => none
  | some (plugins, inpList) =>
    let st0 := entryState app nChannels nSamples inpList
    let st := chainStateAt app nChannels nSamples sampleRate plugins st0 plugins.length
    some
      ({ app with
          vst3Plugins_ := plugins
          pingPongAudioBuffers_ := st.pingPongAudioBuffers_
          pingPongEventLists_ := st.pingPongEventLists_
          currentPpq_ := advancePpq app.currentPpq_ app.tempo_ nSamples sampleRate },
        interleave nChannels nSamples (st.pingPongAudioBuffers_ st.inpPtr) wasapiInterleavedBuf)

/-- The plug-in `p1` is the plug-in `p` with, possibly, another queue state. -/
def sameUnit (p p1 : Vst3Plugin S) : Prop :=
  p1 = { p with eventQueue_ := p1.eventQueue_ }

/-- Length of each ping-pong audio buffer as `mainLoop` sizes it:
`pingPongAudioBuffers_[k].resize(maxSamples_ * maxChannels_)`, the product
being computed in `unsigned`. -/
def audioBufferLength (app : AppMain S) : Nat :=
  (app.maxSamples_ * app.maxChannels_) % 2 ^ 32

/-- Length of `inpPtrs_` and of `outPtrs_` as `mainLoop` sizes them:
`resize(maxChannels_)`. -/
def channelPtrsLength (app : AppMain S) : Nat := app.maxChannels_

/-- The indices `iChannel` at which the loop that sets the channel pointers of
a stage stores into `inpPtrs_` and into `outPtrs_`. -/
def channelPtrIndices (nChannels : Nat) : List Nat := List.range nChannels

/-- The elements of a ping-pong buffer that the channel pointers of a stage
address: for every channel, `nSamples` elements from `iChannel * nSamples`
on. -/
def channelIndices (nChannels nSamples : Nat) : List Nat :=
  ((List.range nChannels).map
    (fun iChannel => (List.range nSamples).map (fun i => chanOffset nSamples iChannel + i))).flatten

/-- The indices `iChannel * nSamples + iSample` at which the interleave loop
reads the final buffer, in loop order. -/
def interleaveSrcIndices (nChannels nSamples : Nat) : List Nat :=
  ((List.range nSamples).map
    (fun iSample =>
      (List.range nChannels).map
        (fun iChannel => (iChannel * nSamples + iSample) % 2 ^ 32))).flatten

/-- The indices `iSample * nChannels + iChannel` at which the interleave loop
stores into the destination span, in loop order. -/
def interleaveDestIndices (nChannels nSamples : Nat) : List Nat :=
  ((List.range nSamples).map
    (fun iSample =>
      (List.range nChannels).map
        (fun iChannel => (iSample * nChannels + iChannel) % 2 ^ 32))).flatten

/-- The elements of the ping-pong buffers (buffer, index) that one stage
uses: those its input and output channel pointers address and, for a
generator, `outPtr[i]` and `inpPtr[i]` of the summing loop. -/
def stageAccesses (nChannels nSamples : Nat) (st : ChainState S) (p : Vst3Plugin S) :
    List (Fin 2 × Nat) :=
  (channelIndices nChannels nSamples).map (fun i => (st.inpPtr, i)) ++
  (channelIndices nChannels nSamples).map (fun i => (st.outPtr, i)) ++
  (if ¬ p.isEffect_ then
    ((List.range (bufSize nSamples nChannels)).map
      (fun i => [(st.outPtr, i), (st.inpPtr, i)])).flatten
  else [])

/-- The elements of the ping-pong buffers used by the chain loop run over
`plugins` from the state `st`, followed by those the interleave loop reads. -/
def chainAccesses [Add S] (app : AppMain S) (nChannels nSamples : Nat) (sampleRate : ℚ) :
    List (Vst3Plugin S) → ChainState S → List (Fin 2 × Nat)
  | [], st => (interleaveSrcIndices nChannels nSamples).map (fun i => (st.inpPtr, i))
  | p :: ps, st =>
    stageAccesses nChannels nSamples st p ++
      chainAccesses app nChannels nSamples sampleRate ps
        (stage app nChannels nSamples sampleRate st p)

/-- Every element of the ping-pong buffers that `audioThreadAppRefill` uses:
the `bufSize` elements `memset` clears in buffer 0, then those of the chain
loop and of the interleave loop. -/
def refillAccesses [Zero S] [Add S] (app : AppMain S) (nChannels nSamples : Nat)
    (sampleRate : ℚ) (plugins : List (Vst3Plugin S)) (inpList : MySimpleEventList) :
    List (Fin 2 × Nat) :=
  (List.range (bufSize nSamples nChannels)).map (fun i => ((0 : Fin 2), i)) ++
    chainAccesses app nChannels nSamples sampleRate plugins
      (entryState app nChannels nSamples inpList)

/-- `keyScan` run by the window procedure of the plug-in at position `i` of
`vst3Plugins_` (each plug-in owns its window, key table and queue). -/
def keyScanAt (GetKeyState : Nat → Nat) (i : Nat) (app : AppMain S) : AppMain S :=
  { app with
    vst3Plugins_ :=
      app.vst3Plugins_.modify (fun p => (Vst3Plugin.keyScan GetKeyState p).plugin) i }

end AppMain

/-! ## Concrete units and applications

Small instances (samples are integers) on which the statements below are
evaluated. -/

namespace Examples

open SpscQueue

/-- NoteOn for MIDI note 60, as `keyScan` builds it. -/
def noteOn60 : Event := Vst3Plugin.keyEvent ⟨60, true⟩

/-- NoteOff for MIDI note 60, as `keyScan` builds it. -/
def noteOff60 : Event := Vst3Plugin.keyEvent ⟨60, false⟩

/-- NoteOn for MIDI note 48, as `keyScan` builds it. -/
def noteOn48 : Event := Vst3Plugin.keyEvent ⟨48, true⟩

/-- A unit whose `process` stores `v` in every output sample, adds the events
`evs` to its output list and returns `res`. -/
def constUnit (v : Int) (isEffect hasEventOutput : Bool) (evs : List Event) (res : tresult)
    (q : SpscQueue Event) : Vst3Plugin Int :=
  { eventQueue_ := q
    vstAudioProcessor_ := fun _ => { result := res, outputs := fun _ _ => v, outputEvents := evs }
    keyMap := Vst3Plugin.initialKeyMap
    isEffect_ := isEffect
    hasEventOutput_ := hasEventOutput }

/-- An effect whose `process` copies its input channels to its output
channels (and leaves the output as it is when it is given no input bus). -/
def passThrough (q : SpscQueue Event) : Vst3Plugin Int :=
  { eventQueue_ := q
    vstAudioProcessor_ := fun pd =>
      { result := tresult.kResultOk
        outputs :=
          match pd.inputs with
          | some bus =>
            match bus.channelBuffers32 with
            | some chans => chans
            | none => fun _ _ => 0
          | none => fun _ _ => 0
        outputEvents := [] }
    keyMap := Vst3Plugin.initialKeyMap
    isEffect_ := true
    hasEventOutput_ := false }

/-- An application around the chain `plugins`: tempo 120, two channels of at
most 4 samples, buffers holding 9 everywhere, event lists freshly built. -/
def mkApp (plugins : List (Vst3Plugin Int)) : AppMain Int :=
  { tempo_ := 120
    currentPpq_ := 0
    maxSamples_ := 4
    maxChannels_ := 2
    vst3Plugins_ := plugins
    pingPongAudioBuffers_ := fun _ _ => 9
    pingPongEventLists_ := fun _ => MySimpleEventList.init }

/-- The calls made so far on the queues of the two units of `queuedApp`. -/
def queuedHist : List (List (Op Event)) :=
  [[Op.push noteOn60, Op.push noteOff60], [Op.push noteOn48]]

/-- Two generators with pending events in their queues. -/
def queuedApp : AppMain Int :=
  mkApp
    [ constUnit 3 false false [] tresult.kResultOk
        (exec Vst3Plugin.EventQueueSize [Op.push noteOn60, Op.push noteOff60]).queue,
      constUnit 4 false false [] tresult.kResultOk
        (exec Vst3Plugin.EventQueueSize [Op.push noteOn48]).queue ]

/-- A unit without event output that nevertheless adds an event to the
outbound list it is given. -/
def strayUnit : Vst3Plugin Int :=
  constUnit 0 false false [noteOn48] tresult.kResultOk SpscQueue.empty

/-- A unit with event output that adds one event. -/
def arpUnit : Vst3Plugin Int :=
  constUnit 0 false true [noteOn60] tresult.kResultOk SpscQueue.empty

/-- The chain `strayUnit`, `arpUnit`. -/
def strayChain : List (Vst3Plugin Int) := [strayUnit, arpUnit]

/-- A generator whose `process` reports failure, followed by a generator. -/
def failingChain : List (Vst3Plugin Int) :=
  [ constUnit 5 false false [] tresult.kResultFalse SpscQueue.empty,
    constUnit 7 false false [] tresult.kResultOk SpscQueue.empty ]

/-- A generator that renders the constant 1. -/
def unitOne : Vst3Plugin Int :=
  constUnit 1 false false [] tresult.kResultOk SpscQueue.empty

/-- A generator that renders the constant 2. -/
def unitTwo : Vst3Plugin Int :=
  constUnit 2 false false [] tresult.kResultOk SpscQueue.empty

/-- A generator that renders the constant 3. -/
def unitThree : Vst3Plugin Int :=
  constUnit 3 false false [] tresult.kResultOk SpscQueue.empty

/-- A generator that renders silence. -/
def silentUnit : Vst3Plugin Int :=
  constUnit 0 false false [] tresult.kResultOk SpscQueue.empty

/-- Two generators with empty queues and the initial key table. -/
def twoUnitApp : AppMain Int := mkApp [unitOne, unitTwo]

/-- A poll in which exactly the key with code `vk` is down. -/
def onlyKeyDown (vk : Nat) : Nat → Nat := fun k => if k = vk then 0x8000 else 0

/-- A poll in which every key is up. -/
def allKeysUp : Nat → Nat := fun _ => 0

end Examples

/-! ## Theorems -/

namespace SpscQueue

variable {T : Type}

theorem next_eq (n i : Nat) (hn : n < 2 ^ 32) (hi : i ≤ n) :
    next n i = if i = n then 0 else i + 1 := by
  unfold next Capacity
  split_ifs with h
  · subst h
    rcases Nat.lt_or_ge (i + 1) (2 ^ 32) with h1 | h1
    · rw [Nat.mod_eq_of_lt h1, Nat.mod_self]
    · have h2 : i + 1 = 2 ^ 32 := by omega
      rw [h2, Nat.mod_self, Nat.zero_mod]
  · have h1 : i + 1 < 2 ^ 32 := by omega
    rw [Nat.mod_eq_of_lt h1, Nat.mod_eq_of_lt (by omega)]

theorem exec_nil (n : Nat) : exec n ([] : List (Op T)) = Run.init := rfl

theorem exec_snoc (n : Nat) (ops : List (Op T)) (op : Op T) :
    exec n (ops ++ [op]) = (exec n ops).step n op := by
  simp [exec, List.foldl_append]

theorem Inv.init (n : Nat) : Inv n (Run.init : Run T) [] where
  hr := Nat.zero_le _
  hw := Nat.zero_le _
  hist := rfl
  hlen := by simp [ringDist, Run.init, empty]
  hslot := by intro k hk; simp at hk
  hdead := by intro k _ _; rfl

theorem Inv.occupancy {n : Nat} {s : Run T} {c : List T} (h : Inv n s c) :
    s.occupancy = c.length := by
  simp [Run.occupancy, h.hist]

theorem Inv.length_le {n : Nat} {s : Run T} {c : List T} (h : Inv n s c) :
    c.length ≤ n := by
  have h1 := h.hr
  have h2 := h.hw
  rw [h.hlen]
  unfold ringDist
  split_ifs <;> omega

theorem Inv.push_fst {n : Nat} {s : Run T} {c : List T} (hn : n < 2 ^ 32)
    (h : Inv n s c) (t : T) :
    (push n s.queue t).1 = true ↔ c.length < n := by
  have h1 := h.hr
  have h2 := h.hw
  have h3 := h.hlen
  unfold push
  simp only [next_eq n _ hn h2]
  unfold ringDist at h3
  split_ifs at h3 ⊢ <;> simp <;> omega

theorem Inv.pop_fst {n : Nat} {s : Run T} {c : List T}
    (h : Inv n s c) (item : T) :
    (pop n s.queue item).1 = true ↔ 0 < c.length := by
  have h1 := h.hr
  have h2 := h.hw
  have h3 := h.hlen
  unfold ringDist at h3
  by_cases hrw : s.queue.readIndex_ = s.queue.writeIndex_
  · have h0 : c.length = 0 := by rw [h3, hrw]; simp
    simp [pop, hrw, h0]
  · have h0 : 0 < c.length := by
      split_ifs at h3 <;> omega
    simp [pop, hrw, h0]

theorem ringIdx_eq_iff {n r w k : Nat} (hr : r ≤ n) (hw : w ≤ n) (hk : k ≤ n) :
    ringIdx n r k = w ↔ k = ringDist n r w := by
  unfold ringIdx ringDist
  split_ifs <;> omega

theorem ringIdx_zero {n r : Nat} (hr : r ≤ n) : ringIdx n r 0 = r := by
  simp [ringIdx, hr]

theorem ringIdx_next {n r k : Nat} (hn : n < 2 ^ 32) (hr : r ≤ n) (hk : k ≤ n) :
    ringIdx n (next n r) k = if k = n then r else ringIdx n r (k + 1) := by
  rw [next_eq n r hn hr]
  unfold ringIdx
  split_ifs <;> omega

theorem ringDist_next_right {n r w : Nat} (hn : n < 2 ^ 32) (hr : r ≤ n) (hw : w ≤ n)
    (hne : next n w ≠ r) : ringDist n r (next n w) = ringDist n r w + 1 := by
  rw [next_eq n w hn hw] at hne ⊢
  unfold ringDist
  split_ifs at hne ⊢ <;> omega

theorem ringDist_next_left {n r w : Nat} (hn : n < 2 ^ 32) (hr : r ≤ n) (hw : w ≤ n)
    (hne : r ≠ w) : ringDist n (next n r) w + 1 = ringDist n r w := by
  rw [next_eq n r hn hr]
  unfold ringDist
  split_ifs <;> omega

theorem next_le {n i : Nat} (hn : n < 2 ^ 32) (hi : i ≤ n) : next n i ≤ n := by
  rw [next_eq n i hn hi]
  split_ifs <;> omega

theorem Inv.step_push {n : Nat} {s : Run T} {c : List T} (hn : n < 2 ^ 32)
    (h : Inv n s c) (t : T) :
    Inv n (s.step n (Op.push t)) (if c.length < n then c ++ [t] else c) := by
  have hfst := h.push_fst hn t
  by_cases hlt : c.length < n
  · have hne : next n s.queue.writeIndex_ ≠ s.queue.readIndex_ := by
      intro heq
      have : (push n s.queue t).1 = false := by simp [push, heq]
      rw [hfst.mpr hlt] at this
      exact Bool.noConfusion this
    have hle := h.length_le
    simp only [hlt, if_true, Run.step, push, hne, if_false]
    refine ⟨h.hr, next_le hn h.hw, ?_, ?_, ?_, ?_⟩
    · simp [h.hist]
    · simp only [List.length_append, List.length_singleton]
      rw [ringDist_next_right hn h.hr h.hw hne, h.hlen]
    · intro k hk
      simp only [List.length_append, List.length_singleton] at hk
      by_cases hkl : k < c.length
      · have hk' : ringIdx n s.queue.readIndex_ k ≠ s.queue.writeIndex_ := by
          rw [Ne, ringIdx_eq_iff h.hr h.hw (by omega), ← h.hlen]
          omega
        simp only [Function.update_noteq hk']
        rw [h.hslot k hkl, List.getElem?_append_left hkl]
      · have hkeq : k = c.length := by omega
        have hk' : ringIdx n s.queue.readIndex_ k = s.queue.writeIndex_ := by
          rw [ringIdx_eq_iff h.hr h.hw (by omega), ← h.hlen]
          exact hkeq
        subst hkeq
        simp only [List.getElem?_concat_length]
        show Function.update s.queue.items_ s.queue.writeIndex_ (some t)
          (ringIdx n s.queue.readIndex_ c.length) = some t
        rw [hk', Function.update_same]
    · intro k hk hkn
      simp only [List.length_append, List.length_singleton] at hk
      have hk' : ringIdx n s.queue.readIndex_ k ≠ s.queue.writeIndex_ := by
        rw [Ne, ringIdx_eq_iff h.hr h.hw hkn, ← h.hlen]
        omega
      simp only [Function.update_noteq hk']
      exact h.hdead k (by omega) hkn
  · have hf : (push n s.queue t).1 = false := by
      cases hb : (push n s.queue t).1
      · rfl
      · exact absurd (hfst.mp hb) hlt
    have heq : next n s.queue.writeIndex_ = s.queue.readIndex_ := by
      by_contra hne
      simp [push, hne] at hf
    simp only [hlt, if_false, Run.step, push, heq, if_true]
    exact ⟨h.hr, h.hw, h.hist, h.hlen, h.hslot, h.hdead⟩

theorem Inv.head_live {n : Nat} {s : Run T} {c : List T} (h : Inv n s c)
    (hc : 0 < c.length) : s.queue.items_ s.queue.readIndex_ = c.head? := by
  have h0 := h.hslot 0 hc
  rw [ringIdx_zero h.hr] at h0
  rw [h0]
  cases c <;> simp

theorem Inv.pop_item {n : Nat} {s : Run T} {c : List T} (h : Inv n s c) (item : T) :
    (pop n s.queue item).2.2 = c.head?.getD item := by
  by_cases hc : 0 < c.length
  · have hne : s.queue.readIndex_ ≠ s.queue.writeIndex_ := by
      intro heq
      have := (h.pop_fst item).mpr hc
      simp [pop, heq] at this
    simp [pop, hne, h.head_live hc]
  · have hnil : c = [] := List.length_eq_zero.mp (by omega)
    have heq : s.queue.readIndex_ = s.queue.writeIndex_ := by
      by_contra hne
      have := (h.pop_fst item).mp (by simp [pop, hne])
      exact hc this
    simp [pop, heq, hnil]

theorem Inv.step_pop {n : Nat} {s : Run T} {c : List T} (hn : n < 2 ^ 32)
    (h : Inv n s c) (item : T) :
    Inv n (s.step n (Op.pop item)) c.tail := by
  have hfst := h.pop_fst item
  have hitem := h.pop_item item
  cases c with
  | nil =>
    have heq : s.queue.readIndex_ = s.queue.writeIndex_ := by
      by_contra hne
      have := hfst.mp (by simp [pop, hne])
      simp at this
    simp only [List.tail_nil, Run.step, pop, heq, if_true]
    exact ⟨h.hr, h.hw, h.hist, h.hlen, h.hslot, h.hdead⟩
  | cons x rest =>
    have hne : s.queue.readIndex_ ≠ s.queue.writeIndex_ := by
      intro heq
      have := hfst.mpr (by simp)
      simp [pop, heq] at this
    have hle := h.length_le
    simp only [List.length_cons] at hle
    have hx : s.queue.items_ s.queue.readIndex_ = some x := h.head_live (by simp)
    simp only [List.tail_cons, Run.step, pop, hne, if_false, if_true, hx, Option.getD_some]
    refine ⟨next_le hn h.hr, h.hw, ?_, ?_, ?_, ?_⟩
    · simp [h.hist]
    · have h1 := ringDist_next_left hn h.hr h.hw hne
      have h2 := h.hlen
      simp only [List.length_cons] at h2
      show rest.length = ringDist n (next n s.queue.readIndex_) s.queue.writeIndex_
      omega
    · intro k hk
      show Function.update s.queue.items_ s.queue.readIndex_ none
        (ringIdx n (next n s.queue.readIndex_) k) = rest[k]?
      rw [ringIdx_next hn h.hr (by omega), if_neg (by omega)]
      have hk' : ringIdx n s.queue.readIndex_ (k + 1) ≠ s.queue.readIndex_ := by
        rw [Ne, ringIdx_eq_iff h.hr h.hr (by omega)]
        simp [ringDist]
      rw [Function.update_noteq hk', h.hslot (k + 1) (by simp; omega)]
      simp
    · intro k hk hkn
      show Function.update s.queue.items_ s.queue.readIndex_ none
        (ringIdx n (next n s.queue.readIndex_) k) = none
      rw [ringIdx_next hn h.hr hkn]
      by_cases hkn' : k = n
      · rw [if_pos hkn', Function.update_same]
      · rw [if_neg hkn']
        have hk' : ringIdx n s.queue.readIndex_ (k + 1) ≠ s.queue.readIndex_ := by
          rw [Ne, ringIdx_eq_iff h.hr h.hr (by omega)]
          simp [ringDist]
        rw [Function.update_noteq hk']
        exact h.hdead (k + 1) (by simp; omega) (by omega)

theorem Inv.step_popped {n : Nat} {s : Run T} {c : List T}
    (h : Inv n s c) (item : T) :
    (s.step n (Op.pop item)).popped = s.popped ++ c.head?.toList := by
  have hfst := h.pop_fst item
  have hitem := h.pop_item item
  cases c with
  | nil =>
    have hf : (pop n s.queue item).1 = false := by
      cases hb : (pop n s.queue item).1
      · rfl
      · have := hfst.mp hb
        simp at this
    simp [Run.step, hf]
  | cons x rest =>
    have ht : (pop n s.queue item).1 = true := hfst.mpr (by simp)
    simp [Run.step, ht, hitem]

/-- Every run from the empty queue satisfies the representation invariant. -/
theorem exec_inv (n : Nat) (hn : n < 2 ^ 32) (ops : List (Op T)) :
    ∃ c, Inv n (exec n ops) c := by
  induction ops using List.reverseRecOn with
  | nil => exact ⟨[], Inv.init n⟩
  | append_singleton ops op ih =>
    obtain ⟨c, hc⟩ := ih
    rw [exec_snoc]
    cases op with
    | push t => exact ⟨_, hc.step_push hn t⟩
    | pop item => exact ⟨_, hc.step_pop hn item⟩

theorem ringDist_int (n r w : Nat) (hr : r ≤ n) (hw : w ≤ n) :
    ((ringDist n r w : Nat) : Int) = ((w : Int) - (r : Int)) % ((Capacity n : Nat) : Int) := by
  unfold ringDist Capacity
  split_ifs with h
  · rw [Int.emod_eq_of_lt (by omega) (by push_cast; omega)]
    omega
  · rw [← Int.add_emod_self, Int.emod_eq_of_lt (by push_cast; omega) (by push_cast; omega)]
    push_cast
    omega

theorem ringDist_eq_zero {n r w : Nat} (hr : r ≤ n) :
    ringDist n r w = 0 ↔ r = w := by
  unfold ringDist
  split_ifs <;> omega

/-- C1. In a state reached from the empty queue by any sequence of push and
pop calls, `push(t)` returns true exactly when the occupancy (items pushed
and not yet popped) is below `NumberOfElements`; when it returns false the
queue (read index, write index, every slot) is left as it was. -/
theorem push_true_iff_occupancy_lt (n : Nat) (hn : n < 2 ^ 32) (ops : List (Op T)) (t : T) :
    ((push n (exec n ops).queue t).1 = true ↔ (exec n ops).occupancy < n) ∧
    ((push n (exec n ops).queue t).1 = false →
      (push n (exec n ops).queue t).2 = (exec n ops).queue) := by
  obtain ⟨c, hc⟩ := exec_inv n hn ops
  refine ⟨?_, ?_⟩
  · rw [hc.occupancy]
    exact hc.push_fst hn t
  · intro hf
    unfold push at hf ⊢
    by_cases h : next n (exec n ops).queue.writeIndex_ = (exec n ops).queue.readIndex_
    · simp [h]
    · simp [h] at hf

theorem push_true_iff_occupancy_lt_witness :
    (2 < 2 ^ 32) ∧
    (((push 2 (exec 2 [Op.push 5, Op.pop 0, Op.push 6, Op.push 7]).queue 8).1 = true ↔
        (exec 2 [Op.push 5, Op.pop 0, Op.push 6, Op.push 7]).occupancy < 2) ∧
      ((push 2 (exec 2 [Op.push 5, Op.pop 0, Op.push 6, Op.push 7]).queue 8).1 = false →
        (push 2 (exec 2 [Op.push 5, Op.pop 0, Op.push 6, Op.push 7]).queue 8).2 =
          (exec 2 [Op.push 5, Op.pop 0, Op.push 6, Op.push 7]).queue)) :=
  ⟨by norm_num,
    push_true_iff_occupancy_lt 2 (by norm_num) [Op.push 5, Op.pop 0, Op.push 6, Op.push 7] 8⟩

/-- C2. In a state reached from the empty queue, `pop(item)` returns false
exactly when `readIndex_ == writeIndex_`, which is exactly when the occupancy
is zero; when it returns false the queue and the caller's `item` are left as
they were; when it returns true the occupancy drops by exactly one. -/
theorem pop_false_iff_empty (n : Nat) (hn : n < 2 ^ 32) (ops : List (Op T)) (item : T) :
    ((pop n (exec n ops).queue item).1 = false ↔
      (exec n ops).queue.readIndex_ = (exec n ops).queue.writeIndex_) ∧
    ((exec n ops).queue.readIndex_ = (exec n ops).queue.writeIndex_ ↔
      (exec n ops).occupancy = 0) ∧
    ((pop n (exec n ops).queue item).1 = false →
      (pop n (exec n ops).queue item).2.1 = (exec n ops).queue ∧
      (pop n (exec n ops).queue item).2.2 = item) ∧
    ((pop n (exec n ops).queue item).1 = true →
      (exec n (ops ++ [Op.pop item])).occupancy + 1 = (exec n ops).occupancy) := by
  obtain ⟨c, hc⟩ := exec_inv n hn ops
  refine ⟨?_, ?_, ?_, ?_⟩
  · unfold pop
    by_cases h : (exec n ops).queue.readIndex_ = (exec n ops).queue.writeIndex_ <;> simp [h]
  · rw [hc.occupancy, hc.hlen]
    exact (ringDist_eq_zero hc.hr).symm
  · intro hf
    unfold pop at hf ⊢
    by_cases h : (exec n ops).queue.readIndex_ = (exec n ops).queue.writeIndex_
    · simp [h]
    · simp [h] at hf
  · intro ht
    have hpos := (hc.pop_fst item).mp ht
    have h2 := hc.step_pop hn item
    rw [exec_snoc, h2.occupancy, hc.occupancy]
    cases c with
    | nil => simp at hpos
    | cons x rest => simp

theorem pop_false_iff_empty_witness :
    (1 < 2 ^ 32) ∧
    (((pop 1 (exec 1 [Op.push 5, Op.pop 0, Op.push 6]).queue 9).1 = false ↔
      (exec 1 [Op.push 5, Op.pop 0, Op.push 6]).queue.readIndex_ =
        (exec 1 [Op.push 5, Op.pop 0, Op.push 6]).queue.writeIndex_) ∧
    ((exec 1 [Op.push 5, Op.pop 0, Op.push 6]).queue.readIndex_ =
        (exec 1 [Op.push 5, Op.pop 0, Op.push 6]).queue.writeIndex_ ↔
      (exec 1 [Op.push 5, Op.pop 0, Op.push 6]).occupancy = 0) ∧
    ((pop 1 (exec 1 [Op.push 5, Op.pop 0, Op.push 6]).queue 9).1 = false →
      (pop 1 (exec 1 [Op.push 5, Op.pop 0, Op.push 6]).queue 9).2.1 =
        (exec 1 [Op.push 5, Op.pop 0, Op.push 6]).queue ∧
      (pop 1 (exec 1 [Op.push 5, Op.pop 0, Op.push 6]).queue 9).2.2 = 9) ∧
    ((pop 1 (exec 1 [Op.push 5, Op.pop 0, Op.push 6]).queue 9).1 = true →
      (exec 1 ([Op.push 5, Op.pop 0, Op.push 6] ++ [Op.pop 9])).occupancy + 1 =
        (exec 1 [Op.push 5, Op.pop 0, Op.push 6]).occupancy)) :=
  ⟨by norm_num, pop_false_iff_empty 1 (by norm_num) [Op.push 5, Op.pop 0, Op.push 6] 9⟩

/-- C3. FIFO: after any sequence of push and pop calls on an initially empty
queue, the items delivered by the successful pops are a prefix of the items
of the successful pushes, in the same order; so the k-th successful pop
delivers the k-th successfully pushed item, wrap-around of the indices
included (the sequence of calls is arbitrary). -/
theorem popped_prefix_of_pushed (n : Nat) (hn : n < 2 ^ 32) (ops : List (Op T)) :
    (exec n ops).popped <+: (exec n ops).pushed ∧
    ∀ k, k < (exec n ops).popped.length →
      (exec n ops).popped[k]? = (exec n ops).pushed[k]? := by
  obtain ⟨c, hc⟩ := exec_inv n hn ops
  refine ⟨⟨c, hc.hist.symm⟩, ?_⟩
  intro k hk
  rw [hc.hist, List.getElem?_append_left hk]

theorem popped_prefix_of_pushed_witness :
    (1 < 2 ^ 32) ∧
    ((exec 1 [Op.push 5, Op.pop 0, Op.push 6, Op.push 7, Op.pop 0, Op.push 8]).popped <+:
      (exec 1 [Op.push 5, Op.pop 0, Op.push 6, Op.push 7, Op.pop 0, Op.push 8]).pushed ∧
    ∀ k, k < (exec 1 [Op.push 5, Op.pop 0, Op.push 6, Op.push 7, Op.pop 0, Op.push 8]).popped.length →
      (exec 1 [Op.push 5, Op.pop 0, Op.push 6, Op.push 7, Op.pop 0, Op.push 8]).popped[k]? =
        (exec 1 [Op.push 5, Op.pop 0, Op.push 6, Op.push 7, Op.pop 0, Op.push 8]).pushed[k]?) :=
  ⟨by norm_num,
    popped_prefix_of_pushed 1 (by norm_num)
      [Op.push 5, Op.pop 0, Op.push 6, Op.push 7, Op.pop 0, Op.push 8]⟩

/-- Pushing `ts` (at most `n` items) into the empty queue: every push
succeeds and the queue holds exactly `ts`. -/
theorem exec_pushes (n : Nat) (hn : n < 2 ^ 32) (ts : List T) (hlen : ts.length ≤ n) :
    Inv n (exec n (ts.map Op.push)) ts ∧
    (exec n (ts.map Op.push)).results = List.replicate ts.length true := by
  induction ts using List.reverseRecOn with
  | nil => exact ⟨Inv.init n, rfl⟩
  | append_singleton ts t ih =>
    simp only [List.length_append, List.length_singleton] at hlen
    obtain ⟨hinv, hres⟩ := ih (by omega)
    have hlt : ts.length < n := by omega
    have hstep := hinv.step_push hn t
    rw [if_pos hlt] at hstep
    have htrue := (hinv.push_fst hn t).mpr hlt
    rw [List.map_append, List.map_singleton, exec_snoc]
    refine ⟨hstep, ?_⟩
    simp only [Run.step, hres, htrue, List.length_append, List.length_singleton]
    rw [List.replicate_succ', List.append_cancel_left_eq]

/-- C4. Usable capacity is exactly `NumberOfElements`: of `N + 1` consecutive
pushes into an empty queue with no pop in between, the first `N` return true
and the last one returns false. -/
theorem pushes_capacity (n : Nat) (hn : n < 2 ^ 32) (ts : List T)
    (hlen : ts.length = n + 1) :
    (exec n (ts.map Op.push)).results = List.replicate n true ++ [false] := by
  induction ts using List.reverseRecOn with
  | nil => simp at hlen
  | append_singleton ts t _ =>
    simp only [List.length_append, List.length_singleton] at hlen
    have hl : ts.length = n := by omega
    obtain ⟨hinv, hres⟩ := exec_pushes n hn ts (by omega)
    have hfalse : (push n (exec n (ts.map Op.push)).queue t).1 = false := by
      cases hb : (push n (exec n (ts.map Op.push)).queue t).1
      · rfl
      · have := (hinv.push_fst hn t).mp hb
        omega
    rw [List.map_append, List.map_singleton, exec_snoc]
    simp only [Run.step, hres, hfalse, hl]

theorem pushes_capacity_witness :
    (3 < 2 ^ 32) ∧ ([10, 11, 12, 13].length = 3 + 1) ∧
    (exec 3 ([10, 11, 12, 13].map Op.push)).results = List.replicate 3 true ++ [false] :=
  ⟨by norm_num, rfl, pushes_capacity 3 (by norm_num) [10, 11, 12, 13] rfl⟩

/-- C5, as stated, fails: with `NumberOfElements = 1`, after one push the
occupancy is 1, which is not strictly less than 1. -/
theorem occupancy_lt_counterexample :
    (exec 1 [Op.push 7]).occupancy = 1 ∧ ¬ ((exec 1 [Op.push 7]).occupancy < 1) := by
  decide

/-- C5, amended. In every state reached from the empty queue by push and pop
calls, the occupancy equals `(writeIndex_ - readIndex_) mod Capacity` and is
at most `NumberOfElements`, that is, strictly less than `Capacity`. -/
theorem occupancy_eq_mod_and_le (n : Nat) (hn : n < 2 ^ 32) (ops : List (Op T)) :
    (((exec n ops).occupancy : Nat) : Int) =
      (((exec n ops).queue.writeIndex_ : Int) - ((exec n ops).queue.readIndex_ : Int)) %
        ((Capacity n : Nat) : Int) ∧
    (exec n ops).occupancy ≤ n ∧ (exec n ops).occupancy < Capacity n := by
  obtain ⟨c, hc⟩ := exec_inv n hn ops
  have hle := hc.length_le
  rw [hc.occupancy]
  refine ⟨?_, hle, ?_⟩
  · rw [hc.hlen]
    exact ringDist_int n _ _ hc.hr hc.hw
  · unfold Capacity
    omega

theorem occupancy_eq_mod_and_le_witness :
    (2 < 2 ^ 32) ∧
    ((((exec 2 [Op.push 5, Op.push 6, Op.pop 0, Op.push 7]).occupancy : Nat) : Int) =
      (((exec 2 [Op.push 5, Op.push 6, Op.pop 0, Op.push 7]).queue.writeIndex_ : Int) -
        ((exec 2 [Op.push 5, Op.push 6, Op.pop 0, Op.push 7]).queue.readIndex_ : Int)) %
        ((Capacity 2 : Nat) : Int) ∧
    (exec 2 [Op.push 5, Op.push 6, Op.pop 0, Op.push 7]).occupancy ≤ 2 ∧
    (exec 2 [Op.push 5, Op.push 6, Op.pop 0, Op.push 7]).occupancy < Capacity 2) :=
  ⟨by norm_num,
    occupancy_eq_mod_and_le 2 (by norm_num) [Op.push 5, Op.push 6, Op.pop 0, Op.push 7]⟩

theorem Inv.pending {n : Nat} {s : Run T} {c : List T} (h : Inv n s c) :
    s.pending = c := by
  simp [Run.pending, h.hist]

end SpscQueue

namespace MySimpleEventList

theorem length_toList (l : MySimpleEventList) : l.toList.length = l.eventCount_ := by
  simp [toList]

theorem toList_clear (l : MySimpleEventList) : l.clear.toList = [] := by
  simp [toList, clear]

theorem addEvent_of_lt (l : MySimpleEventList) (e : Event) (h : l.eventCount_ < MaxEvents) :
    (l.addEvent e).1 = tresult.kResultOk ∧
    (l.addEvent e).2.eventCount_ = l.eventCount_ + 1 ∧
    (l.addEvent e).2.toList = l.toList ++ [e] := by
  have h1 : ¬ l.eventCount_ ≥ MaxEvents := by omega
  simp only [addEvent, h1, if_false, toList, true_and]
  rw [List.range_succ, List.map_append, List.map_singleton, Function.update_same]
  congr 1
  apply List.map_congr_left
  intro i hi
  rw [List.mem_range] at hi
  rw [Function.update_noteq (by omega)]

theorem addEvent_of_ge (l : MySimpleEventList) (e : Event) (h : MaxEvents ≤ l.eventCount_) :
    l.addEvent e = (tresult.kResultFalse, l) := by
  simp [addEvent, h]

theorem addEvents_spec (es : List Event) (l : MySimpleEventList)
    (h : l.eventCount_ ≤ MaxEvents) :
    (l.addEvents es).eventCount_ ≤ MaxEvents ∧
    (l.addEvents es).toList = (l.toList ++ es).take MaxEvents := by
  induction es generalizing l with
  | nil =>
    refine ⟨h, ?_⟩
    simp only [addEvents, List.foldl_nil, List.append_nil]
    rw [List.take_of_length_le (by rw [length_toList]; exact h)]
  | cons e es ih =>
    have hstep : l.addEvents (e :: es) = (l.addEvent e).2.addEvents es := rfl
    rw [hstep]
    rcases Nat.lt_or_ge l.eventCount_ MaxEvents with hlt | hge
    · obtain ⟨_, hcnt, hlist⟩ := addEvent_of_lt l e hlt
      obtain ⟨h1, h2⟩ := ih (l.addEvent e).2 (by omega)
      refine ⟨h1, ?_⟩
      rw [h2, hlist, List.append_assoc, List.singleton_append]
    · rw [addEvent_of_ge l e hge]
      obtain ⟨h1, h2⟩ := ih l h
      refine ⟨h1, ?_⟩
      have hlen : l.toList.length = MaxEvents := by rw [length_toList]; omega
      rw [h2, List.take_append_of_le_length (by omega), List.take_append_of_le_length (by omega)]

end MySimpleEventList

namespace AppMain

variable {S : Type}

open SpscQueue

theorem eventQueueSize_lt : Vst3Plugin.EventQueueSize < 2 ^ 32 := by
  norm_num [Vst3Plugin.EventQueueSize]

theorem take_take_append {α : Type} (n : Nat) (a b : List α) :
    ((a.take n) ++ b).take n = (a ++ b).take n := by
  rcases Nat.le_total a.length n with h | h
  · rw [List.take_of_length_le h]
  · rw [List.take_append_of_le_length h,
      List.take_append_of_le_length (by rw [List.length_take]; omega), List.take_take, min_self]

/-- Draining a queue that holds `c`: with more fuel than items the loop ends,
the queue is empty and every item was handed to `addEvent`, in order. -/
theorem drainQueue_spec (c : List Event) :
    ∀ (s : Run Event) (fuel : Nat) (e : Event) (l : MySimpleEventList),
      Inv Vst3Plugin.EventQueueSize s c → c.length < fuel →
      ∃ s1 : Run Event, Inv Vst3Plugin.EventQueueSize s1 [] ∧
        drainQueue fuel s.queue e l = some (s1.queue, l.addEvents c) := by
  induction c with
  | nil =>
    intro s fuel e l h hf
    obtain ⟨f, rfl⟩ : ∃ f, fuel = f + 1 := ⟨fuel - 1, by simp at hf; omega⟩
    have hfalse : (pop Vst3Plugin.EventQueueSize s.queue e).1 = false := by
      cases hb : (pop Vst3Plugin.EventQueueSize s.queue e).1
      · rfl
      · have := (h.pop_fst e).mp hb
        simp at this
    refine ⟨s.step Vst3Plugin.EventQueueSize (Op.pop e), h.step_pop eventQueueSize_lt e, ?_⟩
    simp only [drainQueue, hfalse]
    rfl
  | cons x rest ih =>
    intro s fuel e l h hf
    obtain ⟨f, rfl⟩ : ∃ f, fuel = f + 1 := ⟨fuel - 1, by simp at hf; omega⟩
    have htrue : (pop Vst3Plugin.EventQueueSize s.queue e).1 = true :=
      (h.pop_fst e).mpr (by simp)
    have hitem : (pop Vst3Plugin.EventQueueSize s.queue e).2.2 = x := by
      rw [h.pop_item e]
      rfl
    have h1 := h.step_pop eventQueueSize_lt e
    simp only [List.tail_cons] at h1
    simp only [List.length_cons] at hf
    obtain ⟨s1, hs1, hd⟩ := ih (s.step Vst3Plugin.EventQueueSize (Op.pop e)) f x
      (l.addEvent x).2 h1 (by omega)
    refine ⟨s1, hs1, ?_⟩
    simp only [drainQueue, htrue, if_true, hitem]
    exact hd

theorem drainPlugins_sameUnit (fuel : Nat) :
    ∀ (ps ps1 : List (Vst3Plugin S)) (l l1 : MySimpleEventList),
      drainPlugins fuel ps l = some (ps1, l1) → List.Forall₂ sameUnit ps ps1 := by
  intro ps
  induction ps with
  | nil =>
    intro ps1 l l1 h
    simp only [drainPlugins, Option.some.injEq, Prod.mk.injEq] at h
    rw [← h.1]
    exact List.Forall₂.nil
  | cons p ps ih =>
    intro ps1 l l1 h
    unfold drainPlugins at h
    cases hd : drainQueue fuel p.eventQueue_ Event.zero l with
    | none => simp [hd] at h
    | some r =>
      obtain ⟨q, l2⟩ := r
      simp only [hd] at h
      cases hr : drainPlugins fuel ps l2 with
      | none => simp [hr] at h
      | some r2 =>
        obtain ⟨ps2, l3⟩ := r2
        simp only [hr, Option.some.injEq, Prod.mk.injEq] at h
        rw [← h.1]
        exact List.Forall₂.cons rfl (ih ps2 l2 l3 hr)

theorem drainPlugins_spec (fuel : Nat) (hfuel : Vst3Plugin.EventQueueSize < fuel) :
    ∀ (ps : List (Vst3Plugin S)) (hist : List (List (Op Event))) (l : MySimpleEventList),
      ps.map (fun p => p.eventQueue_) =
        hist.map (fun ops => (exec Vst3Plugin.EventQueueSize ops).queue) →
      l.eventCount_ ≤ MySimpleEventList.MaxEvents →
      ∃ ps1 l1, drainPlugins fuel ps l = some (ps1, l1) ∧
        l1.eventCount_ ≤ MySimpleEventList.MaxEvents ∧
        l1.toList = (l.toList ++ (hist.map
          (fun ops => (exec Vst3Plugin.EventQueueSize ops).pending)).flatten).take
            MySimpleEventList.MaxEvents ∧
        ∀ p ∈ ps1, ∃ s : Run Event, Inv Vst3Plugin.EventQueueSize s [] ∧
          p.eventQueue_ = s.queue := by
  intro ps
  induction ps with
  | nil =>
    intro hist l hq hl
    cases hist with
    | nil =>
      refine ⟨[], l, rfl, hl, ?_, ?_⟩
      · simp only [List.map_nil, List.flatten_nil, List.append_nil]
        rw [List.take_of_length_le (by rw [MySimpleEventList.length_toList]; exact hl)]
      · intro p hp
        simp at hp
    | cons ops hist => simp at hq
  | cons p ps ih =>
    intro hist l hq hl
    cases hist with
    | nil => simp at hq
    | cons ops hist =>
      simp only [List.map_cons, List.cons.injEq] at hq
      obtain ⟨hq1, hq2⟩ := hq
      obtain ⟨c, hc⟩ := exec_inv Vst3Plugin.EventQueueSize eventQueueSize_lt ops
      have hcl := hc.length_le
      obtain ⟨s1, hs1, hd⟩ := drainQueue_spec c (exec Vst3Plugin.EventQueueSize ops) fuel
        Event.zero l hc (by omega)
      obtain ⟨ha1, ha2⟩ := MySimpleEventList.addEvents_spec c l hl
      obtain ⟨ps1, l1, hps, hl1, hl1list, hall⟩ := ih hist (l.addEvents c) hq2 ha1
      refine ⟨{ p with eventQueue_ := s1.queue } :: ps1, l1, ?_, hl1, ?_, ?_⟩
      · simp only [drainPlugins, hq1, hd, hps]
      · rw [hl1list, ha2, take_take_append, List.map_cons, List.flatten_cons, hc.pending,
          List.append_assoc]
      · intro p1 hp1
        rcases List.mem_cons.mp hp1 with h | h
        · exact ⟨s1, hs1, by rw [h]⟩
        · exact hall p1 h

theorem inv_nil_empty {s : Run Event} (h : Inv Vst3Plugin.EventQueueSize s []) :
    s.queue.readIndex_ = s.queue.writeIndex_ := by
  have h1 := h.hlen
  simp only [List.length_nil] at h1
  exact (ringDist_eq_zero h.hr).mp h1.symm

theorem audioThreadAppRefill_eq [Zero S] [Add S] (fuel : Nat) (app : AppMain S)
    (dest : Nat → S) (nChannels nSamples : Nat) (sampleRate : ℚ)
    (plugins : List (Vst3Plugin S)) (inpList : MySimpleEventList)
    (h : drainPlugins fuel app.vst3Plugins_ (app.pingPongEventLists_ 0).clear =
      some (plugins, inpList)) :
    audioThreadAppRefill fuel app dest nChannels nSamples sampleRate =
      some
        ({ app with
            vst3Plugins_ := plugins
            pingPongAudioBuffers_ :=
              (chainStateAt app nChannels nSamples sampleRate plugins
                (entryState app nChannels nSamples inpList)
                plugins.length).pingPongAudioBuffers_
            pingPongEventLists_ :=
              (chainStateAt app nChannels nSamples sampleRate plugins
                (entryState app nChannels nSamples inpList)
                plugins.length).pingPongEventLists_
            currentPpq_ := advancePpq app.currentPpq_ app.tempo_ nSamples sampleRate },
          interleave nChannels nSamples
            ((chainStateAt app nChannels nSamples sampleRate plugins
                (entryState app nChannels nSamples inpList)
                plugins.length).pingPongAudioBuffers_
              (chainStateAt app nChannels nSamples sampleRate plugins
                (entryState app nChannels nSamples inpList)
                plugins.length).inpPtr)
            dest) := by
  simp only [audioThreadAppRefill, h]

/-- C6. Queue draining in `audioThreadAppRefill` (no push happens during the
call): whatever the event lists held before, the call returns, afterwards
every unit's queue is empty (`readIndex_ == writeIndex_`, `pop` fails), and
the inbound event list with which stage 0 starts holds the units' pending
events, unit after unit in chain order and oldest first within a unit,
cut off at `MaxEvents = 1024`. -/
theorem drain_fills_stage0_list [Zero S] [Add S] (app : AppMain S)
    (hist : List (List (Op Event)))
    (hq : app.vst3Plugins_.map (fun p => p.eventQueue_) =
      hist.map (fun ops => (exec Vst3Plugin.EventQueueSize ops).queue))
    (fuel : Nat) (hfuel : Capacity Vst3Plugin.EventQueueSize ≤ fuel)
    (dest : Nat → S) (nChannels nSamples : Nat) (sampleRate : ℚ) :
    ∃ (plugins : List (Vst3Plugin S)) (inpList : MySimpleEventList)
      (app1 : AppMain S) (dest1 : Nat → S),
      drainPlugins fuel app.vst3Plugins_ (app.pingPongEventLists_ 0).clear =
        some (plugins, inpList) ∧
      audioThreadAppRefill fuel app dest nChannels nSamples sampleRate = some (app1, dest1) ∧
      app1.vst3Plugins_ = plugins ∧
      plugins.length = app.vst3Plugins_.length ∧
      (∀ p ∈ plugins, p.eventQueue_.readIndex_ = p.eventQueue_.writeIndex_ ∧
        ∀ e, (pop Vst3Plugin.EventQueueSize p.eventQueue_ e).1 = false) ∧
      ((entryState app nChannels nSamples inpList).pingPongEventLists_
          (entryState app nChannels nSamples inpList).inpEvents).toList =
        ((hist.map (fun ops => (exec Vst3Plugin.EventQueueSize ops).pending)).flatten).take
          MySimpleEventList.MaxEvents := by
  have hf : Vst3Plugin.EventQueueSize < fuel := by
    unfold Capacity at hfuel
    omega
  obtain ⟨ps1, l1, hd, _, hlist, hall⟩ :=
    drainPlugins_spec fuel hf app.vst3Plugins_ hist (app.pingPongEventLists_ 0).clear hq
      (by simp [MySimpleEventList.clear])
  refine ⟨ps1, l1, _, _, hd, audioThreadAppRefill_eq fuel app dest nChannels nSamples
    sampleRate ps1 l1 hd, rfl, ?_, ?_, ?_⟩
  · exact (List.Forall₂.length_eq (drainPlugins_sameUnit fuel _ _ _ _ hd)).symm
  · intro p hp
    obtain ⟨s, hs, hqs⟩ := hall p hp
    have hemp := inv_nil_empty hs
    rw [hqs]
    refine ⟨hemp, ?_⟩
    intro e
    simp [pop, hemp]
  · have h01 : (0 : Fin 2) ≠ 1 := by decide
    simp only [entryState, Function.update_noteq h01, Function.update_same]
    rw [hlist, MySimpleEventList.toList_clear, List.nil_append]

/-! ### The chain loop -/

theorem bufSize_eq {nSamples nChannels : Nat} (hfit : nSamples * nChannels < 2 ^ 32) :
    bufSize nSamples nChannels = nSamples * nChannels :=
  Nat.mod_eq_of_lt hfit

theorem chainStateAt_zero [Add S] (app : AppMain S) (nChannels nSamples : Nat)
    (sampleRate : ℚ) (plugins : List (Vst3Plugin S)) (st0 : ChainState S) :
    chainStateAt app nChannels nSamples sampleRate plugins st0 0 = st0 := by
  simp [chainStateAt]

theorem chainStateAt_succ [Add S] (app : AppMain S) (nChannels nSamples : Nat)
    (sampleRate : ℚ) (plugins : List (Vst3Plugin S)) (st0 : ChainState S)
    (k : Nat) (hk : k < plugins.length) :
    chainStateAt app nChannels nSamples sampleRate plugins st0 (k + 1) =
      stage app nChannels nSamples sampleRate
        (chainStateAt app nChannels nSamples sampleRate plugins st0 k) plugins[k] := by
  simp only [chainStateAt, List.take_succ, List.getElem?_eq_getElem hk, Option.toList_some,
    List.foldl_append, List.foldl_cons, List.foldl_nil]

theorem stage_ptrs [Add S] (app : AppMain S) (nChannels nSamples : Nat) (sampleRate : ℚ)
    (st : ChainState S) (p : Vst3Plugin S) :
    (stage app nChannels nSamples sampleRate st p).inpPtr = st.outPtr ∧
    (stage app nChannels nSamples sampleRate st p).outPtr = st.inpPtr ∧
    (stage app nChannels nSamples sampleRate st p).inpEvents =
      (if p.hasEventOutput_ then st.outEvents else st.inpEvents) ∧
    (stage app nChannels nSamples sampleRate st p).outEvents =
      (if p.hasEventOutput_ then st.inpEvents else st.outEvents) := by
  unfold stage mixAndSwap swapEvents renderStage
  cases p.hasEventOutput_ <;> simp

/-- In every state of the chain loop the two audio pointers address different
buffers and the two event pointers address different lists. -/
theorem chainStateAt_distinct [Zero S] [Add S] (app : AppMain S) (nChannels nSamples : Nat)
    (sampleRate : ℚ) (plugins : List (Vst3Plugin S)) (inpList : MySimpleEventList)
    (k : Nat) :
    (chainStateAt app nChannels nSamples sampleRate plugins
      (entryState app nChannels nSamples inpList) k).inpPtr ≠
    (chainStateAt app nChannels nSamples sampleRate plugins
      (entryState app nChannels nSamples inpList) k).outPtr ∧
    (chainStateAt app nChannels nSamples sampleRate plugins
      (entryState app nChannels nSamples inpList) k).inpEvents ≠
    (chainStateAt app nChannels nSamples sampleRate plugins
      (entryState app nChannels nSamples inpList) k).outEvents := by
  induction k with
  | zero =>
    rw [chainStateAt_zero]
    exact ⟨by simp [entryState], by simp [entryState]⟩
  | succ k ih =>
    by_cases hk : k < plugins.length
    · rw [chainStateAt_succ _ _ _ _ _ _ k hk]
      obtain ⟨h1, h2, h3, h4⟩ := stage_ptrs app nChannels nSamples sampleRate
        (chainStateAt app nChannels nSamples sampleRate plugins
          (entryState app nChannels nSamples inpList) k) plugins[k]
      rw [h1, h2, h3, h4]
      refine ⟨ih.1.symm, ?_⟩
      cases plugins[k].hasEventOutput_
      · simpa using ih.2
      · simpa using ih.2.symm
    · have hle : plugins.length ≤ k := by omega
      have h1 : chainStateAt app nChannels nSamples sampleRate plugins
          (entryState app nChannels nSamples inpList) (k + 1) =
          chainStateAt app nChannels nSamples sampleRate plugins
          (entryState app nChannels nSamples inpList) k := by
        simp only [chainStateAt]
        rw [List.take_of_length_le (by omega), List.take_of_length_le hle]
      rw [h1]
      exact ih

theorem addInput_spec [Add S] (n : Nat) (inpPtr outPtr : Fin 2) (bufs : Fin 2 → Nat → S)
    (hne : inpPtr ≠ outPtr) :
    addInput n inpPtr outPtr bufs =
      Function.update bufs outPtr
        (fun i => if i < n then bufs outPtr i + bufs inpPtr i else bufs outPtr i) := by
  induction n with
  | zero =>
    simp [addInput]
  | succ n ih =>
    unfold addInput at ih ⊢
    rw [List.range_succ, List.foldl_append, ih]
    simp only [List.foldl_cons, List.foldl_nil, Function.update_same,
      Function.update_noteq hne, Function.update_idem]
    apply congrArg (Function.update bufs outPtr)
    funext i
    by_cases hi : i = n
    · subst hi
      simp
    · rw [Function.update_noteq hi]
      have : (i < n + 1) = (i < n) := by
        apply propext
        constructor <;> intro h <;> omega
      simp only [this]

theorem swapEvents_audio (st : ChainState S) (p : Vst3Plugin S) :
    (swapEvents st p).pingPongAudioBuffers_ = st.pingPongAudioBuffers_ ∧
    (swapEvents st p).inpPtr = st.inpPtr ∧ (swapEvents st p).outPtr = st.outPtr := by
  unfold swapEvents
  cases p.hasEventOutput_ <;> simp

theorem renderStage_ptrs (app : AppMain S) (nChannels nSamples : Nat) (sampleRate : ℚ)
    (st : ChainState S) (p : Vst3Plugin S) :
    (renderStage app nChannels nSamples sampleRate st p).inpPtr = st.inpPtr ∧
    (renderStage app nChannels nSamples sampleRate st p).outPtr = st.outPtr ∧
    (renderStage app nChannels nSamples sampleRate st p).inpEvents = st.inpEvents ∧
    (renderStage app nChannels nSamples sampleRate st p).outEvents = st.outEvents :=
  ⟨rfl, rfl, rfl, rfl⟩

theorem renderStage_inp (app : AppMain S) (nChannels nSamples : Nat) (sampleRate : ℚ)
    (st : ChainState S) (p : Vst3Plugin S) (hne : st.inpPtr ≠ st.outPtr) :
    (renderStage app nChannels nSamples sampleRate st p).pingPongAudioBuffers_ st.inpPtr =
      st.pingPongAudioBuffers_ st.inpPtr := by
  simp only [renderStage, Function.update_noteq hne]

/-- What one stage leaves in the buffer that the next stage reads. -/
theorem stage_next_input [Add S] (app : AppMain S) (nChannels nSamples : Nat)
    (sampleRate : ℚ) (st : ChainState S) (p : Vst3Plugin S) (hne : st.inpPtr ≠ st.outPtr) :
    (stage app nChannels nSamples sampleRate st p).pingPongAudioBuffers_
        (stage app nChannels nSamples sampleRate st p).inpPtr =
      fun i =>
        if p.isEffect_ = false ∧ i < bufSize nSamples nChannels then
          (renderStage app nChannels nSamples sampleRate st p).pingPongAudioBuffers_
              st.outPtr i +
            st.pingPongAudioBuffers_ st.inpPtr i
        else
          (renderStage app nChannels nSamples sampleRate st p).pingPongAudioBuffers_
            st.outPtr i := by
  obtain ⟨h1, h2, h3⟩ := swapEvents_audio (renderStage app nChannels nSamples sampleRate st p) p
  have hin := renderStage_inp app nChannels nSamples sampleRate st p hne
  have hi' : (swapEvents (renderStage app nChannels nSamples sampleRate st p) p).inpPtr =
      st.inpPtr := h2
  have ho' : (swapEvents (renderStage app nChannels nSamples sampleRate st p) p).outPtr =
      st.outPtr := h3
  unfold stage mixAndSwap
  simp only [h1, hi', ho']
  cases hE : p.isEffect_
  · simp only [Bool.false_eq_true, not_false_eq_true, if_true, true_and]
    rw [addInput_spec _ _ _ _ hne, Function.update_same, hin]
  · simp

/-- C7. Generator add vs. effect replace: for every stage `k` of the chain
loop of `audioThreadAppRefill` and every index `i < nSamples * nChannels`
(the product fits `unsigned`), the buffer the next stage reads as its input
holds `rendered[i] + input[i]` when unit `k` is a generator and `rendered[i]`
when it is an effect, where `rendered` is the output buffer as the unit's
render call left it and `input` is the buffer stage `k` read. -/
theorem generator_adds_effect_replaces [Zero S] [Add S] (app : AppMain S)
    (nChannels nSamples : Nat) (sampleRate : ℚ) (plugins : List (Vst3Plugin S))
    (inpList : MySimpleEventList) (hfit : nSamples * nChannels < 2 ^ 32)
    (k : Nat) (hk : k < plugins.length) (i : Nat) (hi : i < nSamples * nChannels) :
    (chainStateAt app nChannels nSamples sampleRate plugins
        (entryState app nChannels nSamples inpList) (k + 1)).pingPongAudioBuffers_
      (chainStateAt app nChannels nSamples sampleRate plugins
        (entryState app nChannels nSamples inpList) (k + 1)).inpPtr i =
    if plugins[k].isEffect_ = true then
      (renderStage app nChannels nSamples sampleRate
        (chainStateAt app nChannels nSamples sampleRate plugins
          (entryState app nChannels nSamples inpList) k) plugins[k]).pingPongAudioBuffers_
        (chainStateAt app nChannels nSamples sampleRate plugins
          (entryState app nChannels nSamples inpList) k).outPtr i
    else
      (renderStage app nChannels nSamples sampleRate
        (chainStateAt app nChannels nSamples sampleRate plugins
          (entryState app nChannels nSamples inpList) k) plugins[k]).pingPongAudioBuffers_
        (chainStateAt app nChannels nSamples sampleRate plugins
          (entryState app nChannels nSamples inpList) k).outPtr i +
      (chainStateAt app nChannels nSamples sampleRate plugins
        (entryState app nChannels nSamples inpList) k).pingPongAudioBuffers_
        (chainStateAt app nChannels nSamples sampleRate plugins
          (entryState app nChannels nSamples inpList) k).inpPtr i := by
  have hd := (chainStateAt_distinct app nChannels nSamples sampleRate plugins inpList k).1
  rw [chainStateAt_succ _ _ _ _ _ _ k hk, stage_next_input _ _ _ _ _ _ hd]
  rw [← bufSize_eq hfit] at hi
  cases hE : plugins[k].isEffect_ <;> simp [hi]

theorem mixAndSwap_events [Add S] (nChannels nSamples : Nat) (st : ChainState S)
    (p : Vst3Plugin S) :
    (mixAndSwap nChannels nSamples st p).pingPongEventLists_ = st.pingPongEventLists_ ∧
    (mixAndSwap nChannels nSamples st p).inpEvents = st.inpEvents ∧
    (mixAndSwap nChannels nSamples st p).outEvents = st.outEvents :=
  ⟨rfl, rfl, rfl⟩

/-- The two event lists after one stage. -/
theorem stage_events [Add S] (app : AppMain S) (nChannels nSamples : Nat)
    (sampleRate : ℚ) (st : ChainState S) (p : Vst3Plugin S)
    (hne : st.inpEvents ≠ st.outEvents) :
    (stage app nChannels nSamples sampleRate st p).pingPongEventLists_
        (stage app nChannels nSamples sampleRate st p).inpEvents =
      (if p.hasEventOutput_ = true then
        (st.pingPongEventLists_ st.outEvents).addEvents
          (renderCall app nSamples sampleRate st p).2
      else st.pingPongEventLists_ st.inpEvents) ∧
    (stage app nChannels nSamples sampleRate st p).pingPongEventLists_
        (stage app nChannels nSamples sampleRate st p).outEvents =
      (if p.hasEventOutput_ = true then (st.pingPongEventLists_ st.inpEvents).clear
      else
        (st.pingPongEventLists_ st.outEvents).addEvents
          (renderCall app nSamples sampleRate st p).2) := by
  unfold stage
  obtain ⟨h1, h2, h3⟩ := mixAndSwap_events nChannels nSamples
    (swapEvents (renderStage app nChannels nSamples sampleRate st p) p) p
  rw [h1, h2, h3]
  unfold swapEvents renderStage
  cases hE : p.hasEventOutput_
  · simp [Function.update_noteq hne]
  · simp [Function.update_noteq hne.symm, Function.update_noteq hne]

/-! ### Loops that store into a buffer -/

theorem foldl_update_other (key : Nat → Nat) (val : Nat → S) (n : Nat) (d : Nat → S)
    (j : Nat) (h : ∀ b, b < n → key b ≠ j) :
    (List.range n).foldl (fun d b => Function.update d (key b) (val b)) d j = d j := by
  induction n with
  | zero => simp
  | succ n ih =>
    rw [List.range_succ, List.foldl_append]
    simp only [List.foldl_cons, List.foldl_nil]
    rw [Function.update_noteq (fun hj => h n (by omega) hj.symm)]
    exact ih (fun b hb => h b (by omega))

theorem foldl_update_at (key : Nat → Nat) (val : Nat → S) (n : Nat) (d : Nat → S)
    (hinj : ∀ a, a < n → ∀ b, b < n → key a = key b → a = b) (b : Nat) (hb : b < n) :
    (List.range n).foldl (fun d b => Function.update d (key b) (val b)) d (key b) = val b := by
  induction n with
  | zero => omega
  | succ n ih =>
    rw [List.range_succ, List.foldl_append]
    simp only [List.foldl_cons, List.foldl_nil]
    by_cases hbn : b = n
    · subst hbn
      rw [Function.update_same]
    · have hne : key b ≠ key n := fun h => hbn (hinj b hb n (by omega) h)
      rw [Function.update_noteq hne]
      exact ih (fun a ha c hc h => hinj a (by omega) c (by omega) h) (by omega)

theorem nested_update_other (key : Nat → Nat → Nat) (val : Nat → Nat → S) (m n : Nat)
    (d : Nat → S) (j : Nat) (h : ∀ a, a < m → ∀ b, b < n → key a b ≠ j) :
    (List.range m).foldl
      (fun d a => (List.range n).foldl (fun d b => Function.update d (key a b) (val a b)) d)
      d j = d j := by
  induction m with
  | zero => simp
  | succ m ih =>
    rw [List.range_succ, List.foldl_append]
    simp only [List.foldl_cons, List.foldl_nil]
    rw [foldl_update_other (key m) (val m) n _ j (fun b hb => h m (by omega) b hb)]
    exact ih (fun a ha b hb => h a (by omega) b hb)

theorem nested_update_at (key : Nat → Nat → Nat) (val : Nat → Nat → S) (m n : Nat)
    (d : Nat → S)
    (hinj : ∀ a, a < m → ∀ b, b < n → ∀ a1, a1 < m → ∀ b1, b1 < n →
      key a b = key a1 b1 → a = a1 ∧ b = b1)
    (a : Nat) (ha : a < m) (b : Nat) (hb : b < n) :
    (List.range m).foldl
      (fun d a => (List.range n).foldl (fun d b => Function.update d (key a b) (val a b)) d)
      d (key a b) = val a b := by
  induction m with
  | zero => omega
  | succ m ih =>
    rw [List.range_succ, List.foldl_append]
    simp only [List.foldl_cons, List.foldl_nil]
    by_cases ham : a = m
    · subst ham
      exact foldl_update_at (key a) (val a) n _
        (fun x hx y hy h => (hinj a ha x hx a ha y hy h).2) b hb
    · rw [foldl_update_other (key m) (val m) n _ (key a b)
        (fun y hy h => ham (hinj m (by omega) y hy a ha b hb h).1.symm)]
      exact ih (fun x hx y hy x1 hx1 y1 hy1 h => hinj x (by omega) y hy x1 (by omega) y1 hy1 h)
        (by omega)

theorem planar_index_lt {m n a b : Nat} (ha : a < m) (hb : b < n) : a * n + b < m * n := by
  have h1 : (a + 1) * n ≤ m * n := Nat.mul_le_mul_right n ha
  rw [Nat.add_mul, Nat.one_mul] at h1
  omega

theorem planar_index_inj {n a b a1 b1 : Nat} (hb : b < n) (hb1 : b1 < n)
    (h : a * n + b = a1 * n + b1) : a = a1 ∧ b = b1 := by
  have key : a = a1 := by
    rcases Nat.lt_trichotomy a a1 with hlt | heq | hgt
    · have h1 : (a + 1) * n ≤ a1 * n := Nat.mul_le_mul_right n hlt
      rw [Nat.add_mul, Nat.one_mul] at h1
      omega
    · exact heq
    · have h1 : (a1 + 1) * n ≤ a * n := Nat.mul_le_mul_right n hgt
      rw [Nat.add_mul, Nat.one_mul] at h1
      omega
  subst key
  exact ⟨rfl, by omega⟩

theorem planar_index_surj {m n j : Nat} (hj : j < m * n) :
    ∃ a, a < m ∧ ∃ b, b < n ∧ a * n + b = j := by
  have hn : 0 < n := by
    rcases Nat.eq_zero_or_pos n with h | h
    · subst h
      simp at hj
    · exact h
  refine ⟨j / n, ?_, j % n, Nat.mod_lt _ hn, ?_⟩
  · exact Nat.div_lt_of_lt_mul (by rw [Nat.mul_comm]; exact hj)
  · rw [Nat.mul_comm]
    exact Nat.div_add_mod j n

theorem interleave_at (nChannels nSamples : Nat) (hfit : nSamples * nChannels < 2 ^ 32)
    (src dest : Nat → S) (iSample : Nat) (hs : iSample < nSamples)
    (iChannel : Nat) (hc : iChannel < nChannels) :
    interleave nChannels nSamples src dest (iSample * nChannels + iChannel) =
      src (iChannel * nSamples + iSample) := by
  have hkey : ∀ a, a < nSamples → ∀ b, b < nChannels →
      (a * nChannels + b) % 2 ^ 32 = a * nChannels + b := by
    intro a ha b hb
    exact Nat.mod_eq_of_lt (lt_trans (planar_index_lt ha hb) hfit)
  have hval : (iChannel * nSamples + iSample) % 2 ^ 32 = iChannel * nSamples + iSample := by
    apply Nat.mod_eq_of_lt
    have := planar_index_lt hc hs
    rw [Nat.mul_comm nChannels nSamples] at this
    omega
  have h := nested_update_at (fun a b => (a * nChannels + b) % 2 ^ 32)
    (fun a b => src ((b * nSamples + a) % 2 ^ 32)) nSamples nChannels dest
    (by
      intro a ha b hb a1 ha1 b1 hb1 h
      simp only [hkey a ha b hb, hkey a1 ha1 b1 hb1] at h
      exact planar_index_inj hb hb1 h)
    iSample hs iChannel hc
  simp only [hkey iSample hs iChannel hc, hval] at h
  exact h

theorem interleave_other (nChannels nSamples : Nat) (hfit : nSamples * nChannels < 2 ^ 32)
    (src dest : Nat → S) (j : Nat) (hj : nSamples * nChannels ≤ j) :
    interleave nChannels nSamples src dest j = dest j := by
  apply nested_update_other (fun a b => (a * nChannels + b) % 2 ^ 32)
    (fun a b => src ((b * nSamples + a) % 2 ^ 32)) nSamples nChannels dest j
  intro a ha b hb
  have h1 := planar_index_lt ha hb
  rw [Nat.mod_eq_of_lt (lt_trans h1 hfit)]
  omega

/-- When every unit's queue is in a state reached from the empty queue and the
fuel covers the queue capacity, the drain loop ends. -/
theorem drain_total (app : AppMain S) (hist : List (List (Op Event)))
    (hq : app.vst3Plugins_.map (fun p => p.eventQueue_) =
      hist.map (fun ops => (exec Vst3Plugin.EventQueueSize ops).queue))
    (fuel : Nat) (hfuel : Capacity Vst3Plugin.EventQueueSize ≤ fuel) :
    ∃ (plugins : List (Vst3Plugin S)) (inpList : MySimpleEventList),
      drainPlugins fuel app.vst3Plugins_ (app.pingPongEventLists_ 0).clear =
        some (plugins, inpList) ∧
      List.Forall₂ sameUnit app.vst3Plugins_ plugins := by
  have hf : Vst3Plugin.EventQueueSize < fuel := by
    unfold Capacity at hfuel
    omega
  obtain ⟨ps1, l1, hd, _, _, _⟩ :=
    drainPlugins_spec fuel hf app.vst3Plugins_ hist (app.pingPongEventLists_ 0).clear hq
      (by simp [MySimpleEventList.clear])
  exact ⟨ps1, l1, hd, drainPlugins_sameUnit fuel _ _ _ _ hd⟩

/-- C9. Planar-to-interleaved conversion: `audioThreadAppRefill` returns, and
for every `iSample < nSamples`, `iChannel < nChannels` the destination holds
`final[iChannel * nSamples + iSample]` at `iSample * nChannels + iChannel`,
where `final` is the buffer the last stage produced; the index map is
injective and onto `[0, nSamples * nChannels)`, so each of these elements is
stored exactly once; elements from `nSamples * nChannels` on are not touched. -/
theorem interleave_planar [Zero S] [Add S] (app : AppMain S)
    (hist : List (List (Op Event)))
    (hq : app.vst3Plugins_.map (fun p => p.eventQueue_) =
      hist.map (fun ops => (exec Vst3Plugin.EventQueueSize ops).queue))
    (fuel : Nat) (hfuel : Capacity Vst3Plugin.EventQueueSize ≤ fuel)
    (dest : Nat → S) (nChannels nSamples : Nat) (sampleRate : ℚ)
    (hfit : nSamples * nChannels < 2 ^ 32) :
    ∃ (plugins : List (Vst3Plugin S)) (inpList : MySimpleEventList)
      (app1 : AppMain S) (dest1 : Nat → S),
      drainPlugins fuel app.vst3Plugins_ (app.pingPongEventLists_ 0).clear =
        some (plugins, inpList) ∧
      audioThreadAppRefill fuel app dest nChannels nSamples sampleRate = some (app1, dest1) ∧
      (∀ iSample, iSample < nSamples → ∀ iChannel, iChannel < nChannels →
        dest1 (iSample * nChannels + iChannel) =
          (chainStateAt app nChannels nSamples sampleRate plugins
              (entryState app nChannels nSamples inpList) plugins.length).pingPongAudioBuffers_
            (chainStateAt app nChannels nSamples sampleRate plugins
              (entryState app nChannels nSamples inpList) plugins.length).inpPtr
            (iChannel * nSamples + iSample)) ∧
      (∀ iSample, iSample < nSamples → ∀ iChannel, iChannel < nChannels →
        iSample * nChannels + iChannel < nSamples * nChannels) ∧
      (∀ iSample, iSample < nSamples → ∀ iChannel, iChannel < nChannels →
        ∀ jSample, jSample < nSamples → ∀ jChannel, jChannel < nChannels →
        iSample * nChannels + iChannel = jSample * nChannels + jChannel →
        iSample = jSample ∧ iChannel = jChannel) ∧
      (∀ j, j < nSamples * nChannels →
        ∃ iSample, iSample < nSamples ∧ ∃ iChannel, iChannel < nChannels ∧
          iSample * nChannels + iChannel = j) ∧
      (∀ j, nSamples * nChannels ≤ j → dest1 j = dest j) := by
  obtain ⟨plugins, inpList, hd, _⟩ := drain_total app hist hq fuel hfuel
  refine ⟨plugins, inpList, _, _, hd,
    audioThreadAppRefill_eq fuel app dest nChannels nSamples sampleRate plugins inpList hd,
    ?_, ?_, ?_, ?_, ?_⟩
  · intro iSample hs iChannel hc
    exact interleave_at nChannels nSamples hfit _ dest iSample hs iChannel hc
  · intro iSample hs iChannel hc
    exact planar_index_lt hs hc
  · intro iSample _ iChannel hc jSample _ jChannel hc1 h
    exact planar_index_inj hc hc1 h
  · intro j hj
    exact planar_index_surj hj
  · intro j hj
    exact interleave_other nChannels nSamples hfit _ dest j hj

/-- C10. Transport advance: `audioThreadAppRefill` returns, with
`sampleRate ≠ 0` it changes `currentPpq_` by exactly
`nSamples * tempo_ / 60 / sampleRate` (exact arithmetic) and leaves `tempo_`
as it was; for 512 samples at 48000 Hz and tempo 120 the advance is `8 / 375`,
within `1e-9` of `0.0213333333`. -/
theorem ppq_advance [Zero S] [Add S] (app : AppMain S)
    (hist : List (List (Op Event)))
    (hq : app.vst3Plugins_.map (fun p => p.eventQueue_) =
      hist.map (fun ops => (exec Vst3Plugin.EventQueueSize ops).queue))
    (fuel : Nat) (hfuel : Capacity Vst3Plugin.EventQueueSize ≤ fuel)
    (dest : Nat → S) (nChannels nSamples : Nat) (sampleRate : ℚ)
    (hrate : sampleRate ≠ 0) :
    (∃ (app1 : AppMain S) (dest1 : Nat → S),
      audioThreadAppRefill fuel app dest nChannels nSamples sampleRate = some (app1, dest1) ∧
      app1.currentPpq_ - app.currentPpq_ = (nSamples : ℚ) * app.tempo_ / 60 / sampleRate ∧
      (app1.currentPpq_ - app.currentPpq_) * sampleRate * 60 = (nSamples : ℚ) * app.tempo_ ∧
      app1.tempo_ = app.tempo_) ∧
    advancePpq 0 120 512 48000 = 8 / 375 ∧
    |advancePpq 0 120 512 48000 - 213333333 / 10000000000| < 1 / 1000000000 := by
  obtain ⟨plugins, inpList, hd, _⟩ := drain_total app hist hq fuel hfuel
  refine ⟨⟨_, _, audioThreadAppRefill_eq fuel app dest nChannels nSamples sampleRate
    plugins inpList hd, ?_, ?_, rfl⟩, ?_, ?_⟩
  · simp [advancePpq]
  · simp only [advancePpq]
    field_simp
    ring
  · norm_num [advancePpq]
  · norm_num [advancePpq, abs_lt]

/-! ### Event lists along the chain -/

/-- When no earlier unit without event output added an event, the outbound
list is empty when stage `k` starts. -/
theorem outbound_count_zero [Zero S] [Add S] (app : AppMain S) (nChannels nSamples : Nat)
    (sampleRate : ℚ) (plugins : List (Vst3Plugin S)) (inpList : MySimpleEventList)
    (k : Nat) (hk : k ≤ plugins.length)
    (hquiet : ∀ j (hj : j < plugins.length), j < k → plugins[j].hasEventOutput_ = false →
      (renderCall app nSamples sampleRate
        (chainStateAt app nChannels nSamples sampleRate plugins
          (entryState app nChannels nSamples inpList) j) plugins[j]).2 = []) :
    ((chainStateAt app nChannels nSamples sampleRate plugins
        (entryState app nChannels nSamples inpList) k).pingPongEventLists_
      (chainStateAt app nChannels nSamples sampleRate plugins
        (entryState app nChannels nSamples inpList) k).outEvents).eventCount_ = 0 := by
  induction k with
  | zero =>
    rw [chainStateAt_zero]
    simp [entryState, MySimpleEventList.clear]
  | succ k ih =>
    have hk1 : k < plugins.length := by omega
    have hd := (chainStateAt_distinct app nChannels nSamples sampleRate plugins inpList k).2
    rw [chainStateAt_succ _ _ _ _ _ _ k hk1,
      (stage_events app nChannels nSamples sampleRate _ plugins[k] hd).2]
    cases hE : plugins[k].hasEventOutput_
    · simp only [Bool.false_eq_true, if_false]
      rw [hquiet k hk1 (by omega) hE]
      exact ih (by omega) (fun j hj hjk => hquiet j hj (by omega))
    · simp [MySimpleEventList.clear]

theorem toList_of_count_zero (l : MySimpleEventList) (h : l.eventCount_ = 0) :
    l.toList = [] := by
  simp [MySimpleEventList.toList, h]

/-- C8, as stated, fails: `strayUnit` has no event output but adds NoteOn 48
to the outbound list; `arpUnit`, the next unit, has event output and adds
NoteOn 60 only; the inbound list of the stage after `arpUnit` holds both
events, not exactly the one `arpUnit` wrote. -/
theorem next_inbound_counterexample :
    Examples.arpUnit.hasEventOutput_ = true ∧
    (renderCall (Examples.mkApp Examples.strayChain) 2 48000
      (chainStateAt (Examples.mkApp Examples.strayChain) 2 2 48000 Examples.strayChain
        (entryState (Examples.mkApp Examples.strayChain) 2 2 MySimpleEventList.init) 1)
      Examples.arpUnit).2 = [Examples.noteOn60] ∧
    ((chainStateAt (Examples.mkApp Examples.strayChain) 2 2 48000 Examples.strayChain
        (entryState (Examples.mkApp Examples.strayChain) 2 2
          MySimpleEventList.init) 2).pingPongEventLists_
      (chainStateAt (Examples.mkApp Examples.strayChain) 2 2 48000 Examples.strayChain
        (entryState (Examples.mkApp Examples.strayChain) 2 2
          MySimpleEventList.init) 2).inpEvents).toList =
      [Examples.noteOn48, Examples.noteOn60] ∧
    ((chainStateAt (Examples.mkApp Examples.strayChain) 2 2 48000 Examples.strayChain
        (entryState (Examples.mkApp Examples.strayChain) 2 2
          MySimpleEventList.init) 2).pingPongEventLists_
      (chainStateAt (Examples.mkApp Examples.strayChain) 2 2 48000 Examples.strayChain
        (entryState (Examples.mkApp Examples.strayChain) 2 2
          MySimpleEventList.init) 2).inpEvents).toList ≠
      (renderCall (Examples.mkApp Examples.strayChain) 2 48000
        (chainStateAt (Examples.mkApp Examples.strayChain) 2 2 48000 Examples.strayChain
          (entryState (Examples.mkApp Examples.strayChain) 2 2 MySimpleEventList.init) 1)
        Examples.arpUnit).2 := by
  decide

/-- C8, amended. Event propagation between consecutive units, provided no
earlier unit of the chain without event output added an event to the outbound
list it was given in this callback: if unit `k` has event output, the inbound
list of the next stage holds exactly the events unit `k` added (those that
`addEvent` stored: the first 1024 at most), in order; if unit `k` has no event
output, the inbound list of the next stage is the inbound list of stage `k`,
unchanged. -/
theorem next_inbound_events [Zero S] [Add S] (app : AppMain S) (nChannels nSamples : Nat)
    (sampleRate : ℚ) (plugins : List (Vst3Plugin S)) (inpList : MySimpleEventList)
    (k : Nat) (hk : k < plugins.length)
    (hquiet : ∀ j (hj : j < plugins.length), j < k → plugins[j].hasEventOutput_ = false →
      (renderCall app nSamples sampleRate
        (chainStateAt app nChannels nSamples sampleRate plugins
          (entryState app nChannels nSamples inpList) j) plugins[j]).2 = []) :
    (plugins[k].hasEventOutput_ = true →
      ((chainStateAt app nChannels nSamples sampleRate plugins
          (entryState app nChannels nSamples inpList) (k + 1)).pingPongEventLists_
        (chainStateAt app nChannels nSamples sampleRate plugins
          (entryState app nChannels nSamples inpList) (k + 1)).inpEvents).toList =
      (renderCall app nSamples sampleRate
        (chainStateAt app nChannels nSamples sampleRate plugins
          (entryState app nChannels nSamples inpList) k) plugins[k]).2.take
        MySimpleEventList.MaxEvents) ∧
    (plugins[k].hasEventOutput_ = false →
      (chainStateAt app nChannels nSamples sampleRate plugins
          (entryState app nChannels nSamples inpList) (k + 1)).pingPongEventLists_
        (chainStateAt app nChannels nSamples sampleRate plugins
          (entryState app nChannels nSamples inpList) (k + 1)).inpEvents =
      (chainStateAt app nChannels nSamples sampleRate plugins
          (entryState app nChannels nSamples inpList) k).pingPongEventLists_
        (chainStateAt app nChannels nSamples sampleRate plugins
          (entryState app nChannels nSamples inpList) k).inpEvents) := by
  have hd := (chainStateAt_distinct app nChannels nSamples sampleRate plugins inpList k).2
  have h0 := outbound_count_zero app nChannels nSamples sampleRate plugins inpList k
    (by omega) hquiet
  rw [chainStateAt_succ _ _ _ _ _ _ k hk,
    (stage_events app nChannels nSamples sampleRate _ plugins[k] hd).1]
  refine ⟨?_, ?_⟩
  · intro hE
    rw [if_pos hE, (MySimpleEventList.addEvents_spec _ _ (by omega)).2,
      toList_of_count_zero _ h0, List.nil_append]
  · intro hE
    rw [if_neg (by simp [hE])]

/-- C20. Provided units without event output never add events to the outbound
list they are given, in `audioThreadAppRefill` the outbound list handed to
each render call is empty at the call, and the inbound and the outbound list
of a render call are the two different elements of `pingPongEventLists_`. -/
theorem outbound_empty_at_render [Zero S] [Add S] (app : AppMain S)
    (nChannels nSamples : Nat) (sampleRate : ℚ) (plugins : List (Vst3Plugin S))
    (inpList : MySimpleEventList)
    (hquiet : ∀ p ∈ plugins, p.hasEventOutput_ = false →
      ∀ pd, (p.vstAudioProcessor_ pd).outputEvents = [])
    (k : Nat) (hk : k < plugins.length) :
    ((chainStateAt app nChannels nSamples sampleRate plugins
        (entryState app nChannels nSamples inpList) k).pingPongEventLists_
      (chainStateAt app nChannels nSamples sampleRate plugins
        (entryState app nChannels nSamples inpList) k).outEvents).getEventCount = 0 ∧
    ((chainStateAt app nChannels nSamples sampleRate plugins
        (entryState app nChannels nSamples inpList) k).pingPongEventLists_
      (chainStateAt app nChannels nSamples sampleRate plugins
        (entryState app nChannels nSamples inpList) k).outEvents).toList = [] ∧
    (chainStateAt app nChannels nSamples sampleRate plugins
        (entryState app nChannels nSamples inpList) k).inpEvents ≠
      (chainStateAt app nChannels nSamples sampleRate plugins
        (entryState app nChannels nSamples inpList) k).outEvents ∧
    (∀ x : Fin 2,
      x = (chainStateAt app nChannels nSamples sampleRate plugins
        (entryState app nChannels nSamples inpList) k).inpEvents ∨
      x = (chainStateAt app nChannels nSamples sampleRate plugins
        (entryState app nChannels nSamples inpList) k).outEvents) := by
  have hd := (chainStateAt_distinct app nChannels nSamples sampleRate plugins inpList k).2
  have h0 := outbound_count_zero app nChannels nSamples sampleRate plugins inpList k
    (by omega)
    (by
      intro j hj _ hE
      exact hquiet plugins[j] (List.getElem_mem hj) hE _)
  refine ⟨h0, toList_of_count_zero _ h0, hd, ?_⟩
  intro x
  revert hd
  generalize (chainStateAt app nChannels nSamples sampleRate plugins
    (entryState app nChannels nSamples inpList) k).inpEvents = a
  generalize (chainStateAt app nChannels nSamples sampleRate plugins
    (entryState app nChannels nSamples inpList) k).outEvents = b
  revert x a b
  decide

/-! ### Audio buffers along the chain -/

theorem storeChannels_at (nChannels nSamples : Nat) (hfit : nSamples * nChannels < 2 ^ 32)
    (rendered : Nat → Nat → S) (buf : Nat → S) (iChannel : Nat) (hc : iChannel < nChannels)
    (i : Nat) (hi : i < nSamples) :
    storeChannels nChannels nSamples rendered buf (iChannel * nSamples + i) =
      rendered iChannel i := by
  have hoff : ∀ a, a < nChannels → chanOffset nSamples a = a * nSamples := by
    intro a ha
    apply Nat.mod_eq_of_lt
    have h1 := planar_index_lt ha hi
    rw [Nat.mul_comm nChannels nSamples] at h1
    omega
  have h := nested_update_at (fun a b => chanOffset nSamples a + b) rendered
    nChannels nSamples buf
    (by
      intro a ha b hb a1 ha1 b1 hb1 h
      simp only [hoff a ha, hoff a1 ha1] at h
      exact planar_index_inj hb hb1 h)
    iChannel hc i hi
  simp only [hoff iChannel hc] at h
  exact h

theorem channelView_at (buf : Nat → S) (nChannels nSamples : Nat)
    (hfit : nSamples * nChannels < 2 ^ 32) (iChannel : Nat) (hc : iChannel < nChannels)
    (i : Nat) (hi : i < nSamples) :
    channelView buf nSamples iChannel i = buf (iChannel * nSamples + i) := by
  have h1 := planar_index_lt hc hi
  rw [Nat.mul_comm nChannels nSamples] at h1
  simp only [channelView, chanOffset]
  rw [Nat.mod_eq_of_lt (by omega)]

/-- The buffer the next stage reads, in terms of what the unit rendered. -/
theorem stage_next_input_at [Add S] (app : AppMain S) (nChannels nSamples : Nat)
    (sampleRate : ℚ) (hfit : nSamples * nChannels < 2 ^ 32) (st : ChainState S)
    (p : Vst3Plugin S) (hne : st.inpPtr ≠ st.outPtr)
    (iChannel : Nat) (hc : iChannel < nChannels) (i : Nat) (hi : i < nSamples) :
    (stage app nChannels nSamples sampleRate st p).pingPongAudioBuffers_
        (stage app nChannels nSamples sampleRate st p).inpPtr (iChannel * nSamples + i) =
      if p.isEffect_ = true then (renderCall app nSamples sampleRate st p).1 iChannel i
      else (renderCall app nSamples sampleRate st p).1 iChannel i +
        st.pingPongAudioBuffers_ st.inpPtr (iChannel * nSamples + i) := by
  have hlt : iChannel * nSamples + i < bufSize nSamples nChannels := by
    rw [bufSize_eq hfit, Nat.mul_comm nSamples nChannels]
    exact planar_index_lt hc hi
  have hr : (renderStage app nChannels nSamples sampleRate st p).pingPongAudioBuffers_
      st.outPtr (iChannel * nSamples + i) =
      (renderCall app nSamples sampleRate st p).1 iChannel i := by
    simp only [renderStage, Function.update_same]
    exact storeChannels_at nChannels nSamples hfit _ _ iChannel hc i hi
  rw [stage_next_input _ _ _ _ _ _ hne]
  simp only [hr, hlt, and_true]
  cases p.isEffect_ <;> simp

/-- C16. Stage-0 input is silence: whatever the ping-pong buffers held before
the call, the input buffer with which the chain loop of
`audioThreadAppRefill` starts is zero at every index below
`nSamples * nChannels` (as the code computes it: `bufSize`), and so is every
sample of every input channel handed to the first unit when the product fits
`unsigned`. -/
theorem stage0_input_silent [Zero S] [Add S] (app : AppMain S) (nChannels nSamples : Nat)
    (sampleRate : ℚ) (plugins : List (Vst3Plugin S)) (inpList : MySimpleEventList) :
    (∀ i, i < bufSize nSamples nChannels →
      (chainStateAt app nChannels nSamples sampleRate plugins
          (entryState app nChannels nSamples inpList) 0).pingPongAudioBuffers_
        (chainStateAt app nChannels nSamples sampleRate plugins
          (entryState app nChannels nSamples inpList) 0).inpPtr i = 0) ∧
    (nSamples * nChannels < 2 ^ 32 →
      (∀ i, i < nSamples * nChannels →
        (chainStateAt app nChannels nSamples sampleRate plugins
            (entryState app nChannels nSamples inpList) 0).pingPongAudioBuffers_
          (chainStateAt app nChannels nSamples sampleRate plugins
            (entryState app nChannels nSamples inpList) 0).inpPtr i = 0) ∧
      ∀ iChannel, iChannel < nChannels → ∀ i, i < nSamples →
        channelView
          ((chainStateAt app nChannels nSamples sampleRate plugins
              (entryState app nChannels nSamples inpList) 0).pingPongAudioBuffers_
            (chainStateAt app nChannels nSamples sampleRate plugins
              (entryState app nChannels nSamples inpList) 0).inpPtr)
          nSamples iChannel i = 0) := by
  rw [chainStateAt_zero]
  have hz : ∀ i, i < bufSize nSamples nChannels →
      (entryState app nChannels nSamples inpList).pingPongAudioBuffers_
        (entryState app nChannels nSamples inpList).inpPtr i = 0 := by
    intro i hi
    simp [entryState, zeroFill, hi]
  refine ⟨hz, ?_⟩
  intro hfit
  refine ⟨fun i hi => hz i (by rw [bufSize_eq hfit]; exact hi), ?_⟩
  intro iChannel hc i hi
  rw [channelView_at _ nChannels nSamples hfit iChannel hc i hi]
  apply hz
  rw [bufSize_eq hfit, Nat.mul_comm nSamples nChannels]
  exact planar_index_lt hc hi

theorem sameUnit_fields {p p1 : Vst3Plugin S} (h : sameUnit p p1) :
    p1.vstAudioProcessor_ = p.vstAudioProcessor_ ∧ p1.isEffect_ = p.isEffect_ ∧
    p1.hasEventOutput_ = p.hasEventOutput_ ∧ p1.keyMap = p.keyMap := by
  unfold sameUnit at h
  exact ⟨by rw [h], by rw [h], by rw [h], by rw [h]⟩

theorem chainStateAt_two [Add S] (app : AppMain S) (nChannels nSamples : Nat)
    (sampleRate : ℚ) (A B : Vst3Plugin S) (st0 : ChainState S) :
    chainStateAt app nChannels nSamples sampleRate [A, B] st0 [A, B].length =
      stage app nChannels nSamples sampleRate
        (stage app nChannels nSamples sampleRate st0 A) B := by
  simp [chainStateAt]

theorem entryState_input_zero [Zero S] (app : AppMain S) (nChannels nSamples : Nat)
    (inpList : MySimpleEventList) (i : Nat) (hi : i < bufSize nSamples nChannels) :
    (entryState app nChannels nSamples inpList).pingPongAudioBuffers_
      (entryState app nChannels nSamples inpList).inpPtr i = 0 := by
  simp [entryState, zeroFill, hi]

theorem entryState_distinct [Zero S] (app : AppMain S) (nChannels nSamples : Nat)
    (inpList : MySimpleEventList) :
    (entryState app nChannels nSamples inpList).inpPtr ≠
      (entryState app nChannels nSamples inpList).outPtr := by
  simp [entryState]

/-- C14. Generator summation: for a chain of exactly two generators whose
render stores the constant `v` in every output sample, whatever the buffers
held before, `audioThreadAppRefill` returns and every element of the
interleaved destination below `nSamples * nChannels` is `v + v`. -/
theorem two_generators_sum [AddZeroClass S] (app : AppMain S) (A B : Vst3Plugin S)
    (hchain : app.vst3Plugins_ = [A, B])
    (hA : A.isEffect_ = false) (hB : B.isEffect_ = false) (v : S)
    (hAv : ∀ pd iChannel i, (A.vstAudioProcessor_ pd).outputs iChannel i = v)
    (hBv : ∀ pd iChannel i, (B.vstAudioProcessor_ pd).outputs iChannel i = v)
    (hist : List (List (Op Event)))
    (hq : app.vst3Plugins_.map (fun p => p.eventQueue_) =
      hist.map (fun ops => (exec Vst3Plugin.EventQueueSize ops).queue))
    (fuel : Nat) (hfuel : Capacity Vst3Plugin.EventQueueSize ≤ fuel)
    (dest : Nat → S) (nChannels nSamples : Nat) (sampleRate : ℚ)
    (hfit : nSamples * nChannels < 2 ^ 32) :
    ∃ (app1 : AppMain S) (dest1 : Nat → S),
      audioThreadAppRefill fuel app dest nChannels nSamples sampleRate = some (app1, dest1) ∧
      ∀ j, j < nSamples * nChannels → dest1 j = v + v := by
  obtain ⟨plugins, inpList, hd, hsame⟩ := drain_total app hist hq fuel hfuel
  rw [hchain] at hsame
  obtain ⟨A1, rest, hA1, hrest, rfl⟩ := List.forall₂_cons_left_iff.mp hsame
  obtain ⟨B1, rest2, hB1, hrest2, rfl⟩ := List.forall₂_cons_left_iff.mp hrest
  have hnil : rest2 = [] := List.forall₂_nil_left_iff.mp hrest2
  subst hnil
  obtain ⟨hAf, hAe, _, _⟩ := sameUnit_fields hA1
  obtain ⟨hBf, hBe, _, _⟩ := sameUnit_fields hB1
  refine ⟨_, _, audioThreadAppRefill_eq fuel app dest nChannels nSamples sampleRate
    [A1, B1] inpList hd, ?_⟩
  intro j hj
  obtain ⟨iSample, hs, iChannel, hc, rfl⟩ := planar_index_surj hj
  rw [interleave_at nChannels nSamples hfit _ dest iSample hs iChannel hc, chainStateAt_two]
  have hd0 := entryState_distinct app nChannels nSamples inpList
  have hp1 := stage_ptrs app nChannels nSamples sampleRate
    (entryState app nChannels nSamples inpList) A1
  have hd1 : (stage app nChannels nSamples sampleRate
      (entryState app nChannels nSamples inpList) A1).inpPtr ≠
      (stage app nChannels nSamples sampleRate
      (entryState app nChannels nSamples inpList) A1).outPtr := by
    rw [hp1.1, hp1.2.1]
    exact hd0.symm
  have hlt : iChannel * nSamples + iSample < bufSize nSamples nChannels := by
    rw [bufSize_eq hfit, Nat.mul_comm nSamples nChannels]
    exact planar_index_lt hc hs
  rw [stage_next_input_at app nChannels nSamples sampleRate hfit _ B1 hd1 iChannel hc
    iSample hs,
    stage_next_input_at app nChannels nSamples sampleRate hfit _ A1 hd0 iChannel hc
    iSample hs,
    entryState_input_zero app nChannels nSamples inpList _ hlt]
  simp only [hAe, hBe, hA, hB, Bool.false_eq_true, if_false, renderCall,
    Vst3Plugin.audioThreadVstRefill, hAf, hBf, hAv, hBv, add_zero]

/-- C15. End-to-end silence: for the chain of a generator that renders zeros
followed by an effect that copies its input channels to its output channels,
with at most `maxChannels_` channels and whatever the buffers and the
destination held before, `audioThreadAppRefill` returns and every element of
the interleaved destination below `nSamples * nChannels` is zero. -/
theorem silent_generator_through_identity [AddZeroClass S] (app : AppMain S)
    (A B : Vst3Plugin S) (hchain : app.vst3Plugins_ = [A, B])
    (hA : A.isEffect_ = false) (hB : B.isEffect_ = true)
    (hAv : ∀ pd iChannel i, (A.vstAudioProcessor_ pd).outputs iChannel i = 0)
    (hBv : ∀ (pd : ProcessData S) (bus : AudioBusBuffers S) (chans : Nat → Nat → S),
      pd.inputs = some bus → bus.channelBuffers32 = some chans →
      ∀ iChannel, iChannel < bus.numChannels → ∀ i, i < pd.numSamples →
        (B.vstAudioProcessor_ pd).outputs iChannel i = chans iChannel i)
    (hist : List (List (Op Event)))
    (hq : app.vst3Plugins_.map (fun p => p.eventQueue_) =
      hist.map (fun ops => (exec Vst3Plugin.EventQueueSize ops).queue))
    (fuel : Nat) (hfuel : Capacity Vst3Plugin.EventQueueSize ≤ fuel)
    (dest : Nat → S) (nChannels nSamples : Nat) (sampleRate : ℚ)
    (hfit : nSamples * nChannels < 2 ^ 32) (hch : nChannels ≤ app.maxChannels_) :
    ∃ (app1 : AppMain S) (dest1 : Nat → S),
      audioThreadAppRefill fuel app dest nChannels nSamples sampleRate = some (app1, dest1) ∧
      ∀ j, j < nSamples * nChannels → dest1 j = 0 := by
  obtain ⟨plugins, inpList, hd, hsame⟩ := drain_total app hist hq fuel hfuel
  rw [hchain] at hsame
  obtain ⟨A1, rest, hA1, hrest, rfl⟩ := List.forall₂_cons_left_iff.mp hsame
  obtain ⟨B1, rest2, hB1, hrest2, rfl⟩ := List.forall₂_cons_left_iff.mp hrest
  have hnil : rest2 = [] := List.forall₂_nil_left_iff.mp hrest2
  subst hnil
  obtain ⟨hAf, hAe, _, _⟩ := sameUnit_fields hA1
  obtain ⟨hBf, hBe, _, _⟩ := sameUnit_fields hB1
  refine ⟨_, _, audioThreadAppRefill_eq fuel app dest nChannels nSamples sampleRate
    [A1, B1] inpList hd, ?_⟩
  intro j hj
  obtain ⟨iSample, hs, iChannel, hc, rfl⟩ := planar_index_surj hj
  rw [interleave_at nChannels nSamples hfit _ dest iSample hs iChannel hc, chainStateAt_two]
  have hd0 := entryState_distinct app nChannels nSamples inpList
  have hp1 := stage_ptrs app nChannels nSamples sampleRate
    (entryState app nChannels nSamples inpList) A1
  have hd1 : (stage app nChannels nSamples sampleRate
      (entryState app nChannels nSamples inpList) A1).inpPtr ≠
      (stage app nChannels nSamples sampleRate
      (entryState app nChannels nSamples inpList) A1).outPtr := by
    rw [hp1.1, hp1.2.1]
    exact hd0.symm
  have hlt : iChannel * nSamples + iSample < bufSize nSamples nChannels := by
    rw [bufSize_eq hfit, Nat.mul_comm nSamples nChannels]
    exact planar_index_lt hc hs
  have hmax : 0 < app.maxChannels_ := by omega
  rw [stage_next_input_at app nChannels nSamples sampleRate hfit _ B1 hd1 iChannel hc
    iSample hs]
  simp only [hBe, hB, if_true]
  have hcall : (renderCall app nSamples sampleRate
      (stage app nChannels nSamples sampleRate
        (entryState app nChannels nSamples inpList) A1) B1).1 iChannel iSample =
      channelView
        ((stage app nChannels nSamples sampleRate
            (entryState app nChannels nSamples inpList) A1).pingPongAudioBuffers_
          (stage app nChannels nSamples sampleRate
            (entryState app nChannels nSamples inpList) A1).inpPtr)
        nSamples iChannel iSample := by
    simp only [renderCall, Vst3Plugin.audioThreadVstRefill, hBf, hBe, hB, if_true, hmax,
      gt_iff_lt]
    exact hBv _ _ _ rfl rfl iChannel (lt_of_lt_of_le hc hch) iSample hs
  rw [hcall, channelView_at _ nChannels nSamples hfit iChannel hc iSample hs,
    stage_next_input_at app nChannels nSamples sampleRate hfit _ A1 hd0 iChannel hc
    iSample hs,
    entryState_input_zero app nChannels nSamples inpList _ hlt]
  simp only [hAe, hA, Bool.false_eq_true, if_false, renderCall,
    Vst3Plugin.audioThreadVstRefill, hAf, hAv, add_zero]

/-! ### The return value of `process` -/

theorem drainPlugins_withResult (res : ProcessData S → tresult) (fuel : Nat) :
    ∀ (ps : List (Vst3Plugin S)) (l : MySimpleEventList),
      drainPlugins fuel (ps.map (Vst3Plugin.withResult res)) l =
        (drainPlugins fuel ps l).map
          (fun r => (r.1.map (Vst3Plugin.withResult res), r.2)) := by
  intro ps
  induction ps with
  | nil =>
    intro l
    rfl
  | cons p ps ih =>
    intro l
    simp only [List.map_cons, drainPlugins]
    have hq : (Vst3Plugin.withResult res p).eventQueue_ = p.eventQueue_ := rfl
    rw [hq]
    cases hd : drainQueue fuel p.eventQueue_ Event.zero l with
    | none => rfl
    | some r =>
      obtain ⟨q, l1⟩ := r
      simp only [ih l1]
      cases hr : drainPlugins fuel ps l1 with
      | none => rfl
      | some r2 => rfl

theorem stage_withResult [Add S] (app : AppMain S) (ps : List (Vst3Plugin S))
    (res : ProcessData S → tresult) (nChannels nSamples : Nat) (sampleRate : ℚ)
    (st : ChainState S) (p : Vst3Plugin S) :
    stage { app with vst3Plugins_ := ps } nChannels nSamples sampleRate st
        (Vst3Plugin.withResult res p) =
      stage app nChannels nSamples sampleRate st p :=
  rfl

theorem chainStateAt_withResult [Add S] (app : AppMain S) (ps0 : List (Vst3Plugin S))
    (res : ProcessData S → tresult) (nChannels nSamples : Nat) (sampleRate : ℚ)
    (ps : List (Vst3Plugin S)) (st0 : ChainState S) (k : Nat) :
    chainStateAt { app with vst3Plugins_ := ps0 } nChannels nSamples sampleRate
        (ps.map (Vst3Plugin.withResult res)) st0 k =
      chainStateAt app nChannels nSamples sampleRate ps st0 k := by
  simp only [chainStateAt, ← List.map_take, List.foldl_map]
  congr 1

/-- C13, as stated, fails: the first unit of `failingChain` returns
`kResultFalse` from `process` (after storing 5 in its output), yet the second
unit is rendered (it stores 7) and the destination holds 5 + 7 = 12, not
silence. -/
theorem failed_render_counterexample :
    (∀ pd, (Examples.constUnit 5 false false [] tresult.kResultFalse
        SpscQueue.empty).vstAudioProcessor_ pd = ⟨tresult.kResultFalse, fun _ _ => 5, []⟩) ∧
    (audioThreadAppRefill 4097 (Examples.mkApp Examples.failingChain) (fun _ => 0) 2 2
        48000).map (fun r => [r.2 0, r.2 1, r.2 2, r.2 3]) = some [12, 12, 12, 12] ∧
    (audioThreadAppRefill 4097 (Examples.mkApp Examples.failingChain) (fun _ => 0) 2 2
        48000).map (fun r => decide (r.2 0 = 0)) = some false := by
  refine ⟨fun _ => rfl, ?_, ?_⟩ <;> decide

/-- C13, amended. The value returned by a unit's `process` is discarded:
whatever the render calls return, `audioThreadAppRefill` renders every unit
of the chain and delivers the same destination buffer, audio buffers, event
lists and transport position as with any other return values (for instance
all `kResultOk`); no silence is substituted. -/
theorem render_result_ignored [Zero S] [Add S] (app : AppMain S)
    (res : ProcessData S → tresult) (fuel : Nat) (dest : Nat → S)
    (nChannels nSamples : Nat) (sampleRate : ℚ) :
    (audioThreadAppRefill fuel
        { app with vst3Plugins_ := app.vst3Plugins_.map (Vst3Plugin.withResult res) }
        dest nChannels nSamples sampleRate).map
      (fun r => (r.2, r.1.pingPongAudioBuffers_, r.1.pingPongEventLists_, r.1.currentPpq_,
        r.1.vst3Plugins_.length)) =
    (audioThreadAppRefill fuel app dest nChannels nSamples sampleRate).map
      (fun r => (r.2, r.1.pingPongAudioBuffers_, r.1.pingPongEventLists_, r.1.currentPpq_,
        r.1.vst3Plugins_.length)) := by
  unfold audioThreadAppRefill
  simp only [drainPlugins_withResult]
  cases hd : drainPlugins fuel app.vst3Plugins_ (app.pingPongEventLists_ 0).clear with
  | none => rfl
  | some r =>
    obtain ⟨ps, l⟩ := r
    simp only [Option.map_some', List.length_map]
    have hE : entryState
        { app with vst3Plugins_ := app.vst3Plugins_.map (Vst3Plugin.withResult res) }
        nChannels nSamples l = entryState app nChannels nSamples l := rfl
    rw [hE, chainStateAt_withResult]

end AppMain

namespace Vst3Plugin

variable {S : Type}

open SpscQueue

/-! ### keyScan -/

theorem scanKey_fold (GetKeyState : Nat → Nat) (km : List (Nat × Key)) :
    ∀ st : ScanState,
      km.foldl (scanKey GetKeyState) st =
        { keys := st.keys ++ km.map (fun entry =>
            (entry.1, ({ entry.2 with status_ := keyDown (GetKeyState entry.1) } : Key)))
          queue := pushAll st.queue
            (km.filterMap (fun entry => edgeEvent (keyDown (GetKeyState entry.1)) entry))
          emitted := st.emitted ++
            km.filterMap (fun entry => edgeEvent (keyDown (GetKeyState entry.1)) entry) } := by
  induction km with
  | nil =>
    intro st
    simp [pushAll]
  | cons entry km ih =>
    intro st
    rw [List.foldl_cons, ih]
    by_cases h : entry.2.status_ = keyDown (GetKeyState entry.1)
    · have hk : ({ entry.2 with status_ := keyDown (GetKeyState entry.1) } : Key) = entry.2 := by
        rw [← h]
      simp [scanKey, edgeEvent, h, hk]
    · simp [scanKey, edgeEvent, h, pushAll]

theorem keyScan_spec (GetKeyState : Nat → Nat) (p : Vst3Plugin S) :
    (keyScan GetKeyState p).plugin.keyMap = setStatus (fun vk => keyDown (GetKeyState vk)) p.keyMap ∧
    (keyScan GetKeyState p).emitted =
      p.keyMap.filterMap (fun entry => edgeEvent (keyDown (GetKeyState entry.1)) entry) ∧
    (keyScan GetKeyState p).plugin.eventQueue_ =
      pushAll p.eventQueue_ (keyScan GetKeyState p).emitted ∧
    (keyScan GetKeyState p).plugin.vstAudioProcessor_ = p.vstAudioProcessor_ ∧
    (keyScan GetKeyState p).plugin.isEffect_ = p.isEffect_ ∧
    (keyScan GetKeyState p).plugin.hasEventOutput_ = p.hasEventOutput_ := by
  simp [keyScan, scanKey_fold, setStatus]

/-- C18. Content of translated events: for a key with MIDI note `p`, the loop
body of `keyScan` emits nothing (and leaves queue and key as they are) when
the polled state equals the stored status; on a rising edge it hands to
`push` a NoteOn with pitch `p`, channel 0, velocity 1, sampleOffset 0 and
flags `kIsLive`, on a falling edge a NoteOff with pitch `p`, channel 0,
velocity 0, sampleOffset 0 and flags `kIsLive`; the events of a whole
`keyScan` are those of its keys, in key order. -/
theorem key_event_content (GetKeyState : Nat → Nat) (st : ScanState) (vk : Nat) (key : Key)
    (p : Vst3Plugin S) :
    scanKey GetKeyState st (vk, key) =
      (if key.status_ = keyDown (GetKeyState vk) then
        { keys := st.keys ++ [(vk, key)], queue := st.queue, emitted := st.emitted }
      else if keyDown (GetKeyState vk) = true then
        { keys := st.keys ++ [(vk, ⟨key.midiNote_, true⟩)]
          queue := (push EventQueueSize st.queue
            { busIndex := 0, sampleOffset := 0, ppqPosition := 0, flags := Event.kIsLive
              type := Event.kNoteOnEvent, channel := 0, pitch := key.midiNote_
              velocity := 1, noteId := key.midiNote_ }).2
          emitted := st.emitted ++
            [{ busIndex := 0, sampleOffset := 0, ppqPosition := 0, flags := Event.kIsLive
               type := Event.kNoteOnEvent, channel := 0, pitch := key.midiNote_
               velocity := 1, noteId := key.midiNote_ }] }
      else
        { keys := st.keys ++ [(vk, ⟨key.midiNote_, false⟩)]
          queue := (push EventQueueSize st.queue
            { busIndex := 0, sampleOffset := 0, ppqPosition := 0, flags := Event.kIsLive
              type := Event.kNoteOffEvent, channel := 0, pitch := key.midiNote_
              velocity := 0, noteId := key.midiNote_ }).2
          emitted := st.emitted ++
            [{ busIndex := 0, sampleOffset := 0, ppqPosition := 0, flags := Event.kIsLive
               type := Event.kNoteOffEvent, channel := 0, pitch := key.midiNote_
               velocity := 0, noteId := key.midiNote_ }] }) ∧
    (keyScan GetKeyState p).emitted =
      p.keyMap.filterMap (fun entry =>
        if entry.2.status_ = keyDown (GetKeyState entry.1) then none
        else if keyDown (GetKeyState entry.1) = true then
          some { busIndex := 0, sampleOffset := 0, ppqPosition := 0, flags := Event.kIsLive
                 type := Event.kNoteOnEvent, channel := 0, pitch := entry.2.midiNote_
                 velocity := 1, noteId := entry.2.midiNote_ }
        else
          some { busIndex := 0, sampleOffset := 0, ppqPosition := 0, flags := Event.kIsLive
                 type := Event.kNoteOffEvent, channel := 0, pitch := entry.2.midiNote_
                 velocity := 0, noteId := entry.2.midiNote_ }) ∧
    (keyScan GetKeyState p).plugin.eventQueue_ =
      pushAll p.eventQueue_ (keyScan GetKeyState p).emitted := by
  refine ⟨?_, ?_, (keyScan_spec GetKeyState p).2.2.1⟩
  · by_cases h : key.status_ = keyDown (GetKeyState vk)
    · simp [scanKey, h]
    · cases hs : key.status_ <;> cases hd : keyDown (GetKeyState vk) <;>
        simp [scanKey, keyEvent, hs, hd] at h ⊢
  · rw [(keyScan_spec GetKeyState p).2.1]
    congr 1
    funext entry
    cases hs : entry.2.status_ <;> cases hd : keyDown (GetKeyState entry.1) <;>
      simp [edgeEvent, keyEvent, hs, hd]

/-! ### Sequences of polls -/

theorem setStatus_setStatus (s t : Nat → Bool) (base : List (Nat × Key)) :
    setStatus t (setStatus s base) = setStatus t base := by
  simp [setStatus, List.map_map, Function.comp_def]

theorem setStatus_congr (s t : Nat → Bool) (base : List (Nat × Key))
    (h : ∀ e ∈ base, s e.1 = t e.1) : setStatus s base = setStatus t base := by
  unfold setStatus
  apply List.map_congr_left
  intro e he
  rw [h e he]

theorem emitted_from_status (s t : Nat → Bool) (base : List (Nat × Key)) :
    (setStatus s base).filterMap (fun e => edgeEvent (t e.1) e) =
      base.filterMap (fun e =>
        if s e.1 ≠ t e.1 then some (keyEvent ⟨e.2.midiNote_, t e.1⟩) else none) := by
  unfold setStatus
  rw [List.filterMap_map]
  rfl

theorem filterMap_all_none {α β : Type} (f : α → Option β) (l : List α)
    (h : ∀ e ∈ l, f e = none) : l.filterMap f = [] := by
  induction l with
  | nil => rfl
  | cons a l ih =>
    rw [List.filterMap_cons, h a (List.mem_cons_self a l)]
    exact ih (fun e he => h e (List.mem_cons_of_mem a he))

theorem filterMap_single {β : Type} (f : Nat × Key → Option β) (l : List (Nat × Key))
    (hnd : (l.map Prod.fst).Nodup) (e0 : Nat × Key) (he0 : e0 ∈ l) (y : β)
    (hy : f e0 = some y) (hother : ∀ e ∈ l, e.1 ≠ e0.1 → f e = none) :
    l.filterMap f = [y] := by
  induction l with
  | nil => simp at he0
  | cons a l ih =>
    rw [List.map_cons, List.nodup_cons] at hnd
    rcases List.mem_cons.mp he0 with h | h
    · subst h
      rw [List.filterMap_cons, hy]
      show y :: List.filterMap f l = [y]
      congr 1
      apply filterMap_all_none
      intro e he
      apply hother e (List.mem_cons_of_mem _ he)
      intro heq
      exact hnd.1 (heq ▸ List.mem_map_of_mem Prod.fst he)
    · have ha : a.1 ≠ e0.1 := by
        intro heq
        exact hnd.1 (heq ▸ List.mem_map_of_mem Prod.fst h)
      rw [List.filterMap_cons, hother a (List.mem_cons_self a l) ha]
      exact ih hnd.2 h (fun e he => hother e (List.mem_cons_of_mem a he))

/-- A poll that shows every tracked key in the state the table records. -/
theorem keyScan_steady (s : Nat → Bool) (base : List (Nat × Key)) (GetKeyState : Nat → Nat)
    (p : Vst3Plugin S) (hkm : p.keyMap = setStatus s base)
    (h : ∀ e ∈ base, keyDown (GetKeyState e.1) = s e.1) :
    (keyScan GetKeyState p).emitted = [] ∧
    (keyScan GetKeyState p).plugin.keyMap = setStatus s base ∧
    (keyScan GetKeyState p).plugin.eventQueue_ = p.eventQueue_ := by
  obtain ⟨h1, h2, h3, _⟩ := keyScan_spec GetKeyState p
  have hem : (keyScan GetKeyState p).emitted = [] := by
    rw [h2, hkm, emitted_from_status s (fun vk => keyDown (GetKeyState vk)) base]
    apply filterMap_all_none
    intro e he
    simp [h e he]
  refine ⟨hem, ?_, ?_⟩
  · rw [h1, hkm, setStatus_setStatus]
    exact setStatus_congr _ _ _ h
  · rw [h3, hem]
    rfl

/-- A poll that shows exactly one tracked key in a state other than the
recorded one. -/
theorem keyScan_edge (s : Nat → Bool) (base : List (Nat × Key)) (GetKeyState : Nat → Nat)
    (p : Vst3Plugin S) (hkm : p.keyMap = setStatus s base)
    (hnd : (base.map Prod.fst).Nodup) (vk0 : Nat) (k0 : Key) (hmem : (vk0, k0) ∈ base)
    (hedge : s vk0 ≠ keyDown (GetKeyState vk0))
    (h : ∀ e ∈ base, e.1 ≠ vk0 → keyDown (GetKeyState e.1) = s e.1) :
    (keyScan GetKeyState p).emitted =
      [keyEvent ⟨k0.midiNote_, keyDown (GetKeyState vk0)⟩] ∧
    (keyScan GetKeyState p).plugin.keyMap =
      setStatus (fun vk => keyDown (GetKeyState vk)) base ∧
    (keyScan GetKeyState p).plugin.eventQueue_ =
      pushAll p.eventQueue_ [keyEvent ⟨k0.midiNote_, keyDown (GetKeyState vk0)⟩] := by
  obtain ⟨h1, h2, h3, _⟩ := keyScan_spec GetKeyState p
  have hem : (keyScan GetKeyState p).emitted =
      [keyEvent ⟨k0.midiNote_, keyDown (GetKeyState vk0)⟩] := by
    rw [h2, hkm, emitted_from_status s (fun vk => keyDown (GetKeyState vk)) base]
    apply filterMap_single _ base hnd (vk0, k0) hmem
    · simp [hedge]
    · intro e he hne
      simp [h e he hne]
  refine ⟨hem, ?_, ?_⟩
  · rw [h1, hkm, setStatus_setStatus]
  · rw [h3, hem]

theorem keyScans_append (a b : List (Nat → Nat)) :
    ∀ p : Vst3Plugin S,
      keyScans (a ++ b) p =
        ((keyScans b (keyScans a p).1).1, (keyScans a p).2 ++ (keyScans b (keyScans a p).1).2) := by
  induction a with
  | nil =>
    intro p
    simp [keyScans]
  | cons poll a ih =>
    intro p
    show keyScans (poll :: (a ++ b)) p = _
    simp only [keyScans, ih, List.append_assoc]

theorem keyScans_steady (s : Nat → Bool) (base : List (Nat × Key)) (polls : List (Nat → Nat)) :
    ∀ p : Vst3Plugin S, p.keyMap = setStatus s base →
      (∀ poll ∈ polls, ∀ e ∈ base, keyDown (poll e.1) = s e.1) →
      (keyScans polls p).2 = [] ∧ (keyScans polls p).1.keyMap = setStatus s base ∧
      (keyScans polls p).1.eventQueue_ = p.eventQueue_ := by
  induction polls with
  | nil =>
    intro p hkm _
    exact ⟨rfl, hkm, rfl⟩
  | cons poll polls ih =>
    intro p hkm h
    obtain ⟨h1, h2, h3⟩ := keyScan_steady s base poll p hkm
      (h poll (List.mem_cons_self poll polls))
    obtain ⟨h4, h5, h6⟩ := ih (keyScan poll p).plugin h2
      (fun q hq => h q (List.mem_cons_of_mem poll hq))
    simp only [keyScans, h1, h4, h5, h6, h3]
    exact ⟨rfl, trivial, trivial⟩

theorem pushAll_exec (es : List Event) :
    ∀ ops : List (Op Event),
      pushAll (exec EventQueueSize ops).queue es =
        (exec EventQueueSize (ops ++ es.map Op.push)).queue := by
  induction es with
  | nil =>
    intro ops
    simp [pushAll]
  | cons e es ih =>
    intro ops
    have h1 : pushAll (exec EventQueueSize ops).queue (e :: es) =
        pushAll (exec EventQueueSize (ops ++ [Op.push e])).queue es := by
      rw [exec_snoc]
      rfl
    rw [h1, ih, List.append_assoc]
    rfl

/-- One or more polls that all show the status `s1`, which differs from the
recorded status `s` at exactly the key `vk0`. -/
theorem keyScans_edge (s s1 : Nat → Bool) (base : List (Nat × Key))
    (hnd : (base.map Prod.fst).Nodup) (vk0 : Nat) (k0 : Key) (hmem : (vk0, k0) ∈ base)
    (d : Nat → Nat) (ds : List (Nat → Nat)) (p : Vst3Plugin S)
    (hkm : p.keyMap = setStatus s base) (hedge : s vk0 ≠ s1 vk0)
    (hs : ∀ e ∈ base, e.1 ≠ vk0 → s e.1 = s1 e.1)
    (hpolls : ∀ poll ∈ d :: ds, ∀ e ∈ base, keyDown (poll e.1) = s1 e.1) :
    (keyScans (d :: ds) p).2 = [keyEvent ⟨k0.midiNote_, s1 vk0⟩] ∧
    (keyScans (d :: ds) p).1.keyMap = setStatus s1 base ∧
    (keyScans (d :: ds) p).1.eventQueue_ =
      pushAll p.eventQueue_ [keyEvent ⟨k0.midiNote_, s1 vk0⟩] := by
  have hd := hpolls d (List.mem_cons_self d ds)
  have hd0 : keyDown (d vk0) = s1 vk0 := hd (vk0, k0) hmem
  obtain ⟨h1, h2, h3⟩ := keyScan_edge s base d p hkm hnd vk0 k0 hmem
    (by rw [hd0]; exact hedge)
    (fun e he hne => by rw [hd e he, hs e he hne])
  have h2' : (keyScan d p).plugin.keyMap = setStatus s1 base := by
    rw [h2]
    exact setStatus_congr _ _ _ hd
  obtain ⟨h4, h5, h6⟩ := keyScans_steady s1 base ds (keyScan d p).plugin h2'
    (fun q hq => hpolls q (List.mem_cons_of_mem d hq))
  simp only [keyScans, h1, h4, h5, h6, h3, hd0, List.append_nil]
  exact ⟨trivial, trivial, trivial⟩

theorem initialKeyMap_nodup : (initialKeyMap.map Prod.fst).Nodup := by
  decide

theorem initialKeyMap_allUp : setStatus (fun _ => false) initialKeyMap = initialKeyMap := by
  decide

/-- Two pushes onto a queue with room for two store both items. -/
theorem exec_push_two (ops : List (Op Event)) (e1 e2 : Event)
    (hroom : (exec EventQueueSize ops).occupancy + 2 ≤ EventQueueSize) :
    (exec EventQueueSize (ops ++ [Op.push e1, Op.push e2])).pending =
      (exec EventQueueSize ops).pending ++ [e1, e2] := by
  obtain ⟨c, hc⟩ := exec_inv EventQueueSize AppMain.eventQueueSize_lt ops
  rw [hc.occupancy] at hroom
  have h1 := hc.step_push AppMain.eventQueueSize_lt e1
  rw [if_pos (by omega)] at h1
  have h2 := h1.step_push AppMain.eventQueueSize_lt e2
  rw [if_pos (by simp; omega)] at h2
  have hex : exec EventQueueSize (ops ++ [Op.push e1, Op.push e2]) =
      ((exec EventQueueSize ops).step EventQueueSize (Op.push e1)).step EventQueueSize
        (Op.push e2) := by
    have : ops ++ [Op.push e1, Op.push e2] = (ops ++ [Op.push e1]) ++ [Op.push e2] := by simp
    rw [this, exec_snoc, exec_snoc]
  rw [hex, h2.pending, hc.pending, List.append_assoc]
  rfl

/-- C11. Keyboard edge detection: starting from the initial key table, over
any sequence of `keyScan` polls in which one tracked key is up for zero or
more polls, then down for one or more polls, then up for one or more polls,
while every other tracked key is up in every poll, the events handed to
`push` are exactly one NoteOn followed by one NoteOff, both with that key's
pitch, however many polls each phase has; the queue is the old queue after
these two pushes, which stores both when it has room for two. -/
theorem press_release_events (p : Vst3Plugin S) (hkm : p.keyMap = initialKeyMap)
    (vk0 : Nat) (note : Int) (hmem : (vk0, (⟨note, false⟩ : Key)) ∈ initialKeyMap)
    (ups downs ups2 : List (Nat → Nat)) (hdowns_ne : downs ≠ []) (hups2_ne : ups2 ≠ [])
    (hups : ∀ poll ∈ ups, ∀ e ∈ initialKeyMap, keyDown (poll e.1) = false)
    (hdowns : ∀ poll ∈ downs, ∀ e ∈ initialKeyMap, keyDown (poll e.1) = decide (e.1 = vk0))
    (hups2 : ∀ poll ∈ ups2, ∀ e ∈ initialKeyMap, keyDown (poll e.1) = false)
    (ops : List (Op Event)) (hq : p.eventQueue_ = (exec EventQueueSize ops).queue) :
    (keyScans (ups ++ downs ++ ups2) p).2 =
      [{ busIndex := 0, sampleOffset := 0, ppqPosition := 0, flags := Event.kIsLive
         type := Event.kNoteOnEvent, channel := 0, pitch := note
         velocity := 1, noteId := note },
       { busIndex := 0, sampleOffset := 0, ppqPosition := 0, flags := Event.kIsLive
         type := Event.kNoteOffEvent, channel := 0, pitch := note
         velocity := 0, noteId := note }] ∧
    (keyScans (ups ++ downs ++ ups2) p).1.keyMap = initialKeyMap ∧
    (keyScans (ups ++ downs ++ ups2) p).1.eventQueue_ =
      (exec EventQueueSize
        (ops ++ [Op.push (keyEvent ⟨note, true⟩), Op.push (keyEvent ⟨note, false⟩)])).queue ∧
    ((exec EventQueueSize ops).occupancy + 2 ≤ EventQueueSize →
      (exec EventQueueSize
        (ops ++ [Op.push (keyEvent ⟨note, true⟩), Op.push (keyEvent ⟨note, false⟩)])).pending =
      (exec EventQueueSize ops).pending ++ [keyEvent ⟨note, true⟩, keyEvent ⟨note, false⟩]) := by
  obtain ⟨d, ds, rfl⟩ := List.exists_cons_of_ne_nil hdowns_ne
  obtain ⟨u, us, rfl⟩ := List.exists_cons_of_ne_nil hups2_ne
  rw [← initialKeyMap_allUp] at hkm
  obtain ⟨a1, a2, a3⟩ := keyScans_steady (fun _ => false) initialKeyMap ups p hkm hups
  obtain ⟨b1, b2, b3⟩ := keyScans_edge (fun _ => false) (fun vk => decide (vk = vk0))
    initialKeyMap initialKeyMap_nodup vk0 ⟨note, false⟩ hmem d ds (keyScans ups p).1 a2
    (by simp) (fun e _ hne => by simp [hne]) hdowns
  obtain ⟨c1, c2, c3⟩ := keyScans_edge (fun vk => decide (vk = vk0)) (fun _ => false)
    initialKeyMap initialKeyMap_nodup vk0 ⟨note, false⟩ hmem u us
    (keyScans (d :: ds) (keyScans ups p).1).1 b2
    (by simp) (fun e _ hne => by simp [hne]) hups2
  simp only [decide_True] at b1 b3
  rw [keyScans_append, keyScans_append]
  simp only [a1, b1, c1, c2, c3, b3, a3, List.nil_append]
  refine ⟨rfl, initialKeyMap_allUp, ?_, exec_push_two ops _ _⟩
  rw [hq]
  have := pushAll_exec [keyEvent ⟨note, true⟩, keyEvent ⟨note, false⟩] ops
  simpa [pushAll] using this

end Vst3Plugin

namespace AppMain

variable {S : Type}

open SpscQueue

/-- C12, as stated, fails: in an application with two units, `keyScan` of the
first unit sees the key `Z` go down and emits NoteOn 48; afterwards the first
unit's queue holds that event, while the second unit's queue is still empty
(`readIndex_ == writeIndex_`, no slot occupied): the event is not enqueued to
every unit. -/
theorem broadcast_counterexample :
    (Vst3Plugin.keyScan (Examples.onlyKeyDown 90)
        Examples.unitOne).emitted =
      [Examples.noteOn48] ∧
    (keyScanAt (Examples.onlyKeyDown 90) 0 Examples.twoUnitApp).vst3Plugins_.map
        (fun p => (p.eventQueue_.readIndex_, p.eventQueue_.writeIndex_,
          p.eventQueue_.items_ 0)) =
      [(0, 1, some Examples.noteOn48), (0, 0, none)] := by
  decide

/-- C12, amended. When `keyScan` of a unit detects an edge on a tracked key,
the resulting event is handed to `push` of that unit's own event queue only:
the unit at the position whose window ran `keyScan` gets the queue that
results from pushing the emitted events in order, every other unit of the
chain is left exactly as it was; a push onto a full queue leaves the queue as
it was, so that event is dropped. -/
theorem keyScan_own_queue_only (GetKeyState : Nat → Nat) (i : Nat) (app : AppMain S) :
    (∀ j, j ≠ i →
      (keyScanAt GetKeyState i app).vst3Plugins_[j]? = app.vst3Plugins_[j]?) ∧
    (keyScanAt GetKeyState i app).vst3Plugins_[i]? =
      (app.vst3Plugins_[i]?).map (fun p => (Vst3Plugin.keyScan GetKeyState p).plugin) ∧
    (∀ p : Vst3Plugin S,
      (Vst3Plugin.keyScan GetKeyState p).plugin.eventQueue_ =
        Vst3Plugin.pushAll p.eventQueue_ (Vst3Plugin.keyScan GetKeyState p).emitted) ∧
    (∀ (q : SpscQueue Event) (e : Event),
      (push Vst3Plugin.EventQueueSize q e).1 = false → Vst3Plugin.pushAll q [e] = q) := by
  refine ⟨?_, ?_, ?_, ?_⟩
  · intro j hj
    simp only [keyScanAt]
    exact List.getElem?_modify_ne _ _ (Ne.symm hj)
  · simp only [keyScanAt]
    rw [List.getElem?_modify_eq]
    rfl
  · intro p
    exact (Vst3Plugin.keyScan_spec GetKeyState p).2.2.1
  · intro q e h
    simp only [Vst3Plugin.pushAll, List.foldl_cons, List.foldl_nil]
    unfold push at h ⊢
    by_cases hfull : next Vst3Plugin.EventQueueSize q.writeIndex_ = q.readIndex_
    · simp [hfull]
    · simp [hfull] at h

end AppMain

namespace MySimpleEventList

theorem getElem?_toList (l : MySimpleEventList) (i : Nat) :
    l.toList[i]? = if i < l.eventCount_ then some (l.events_ i) else none := by
  unfold toList
  rw [List.getElem?_map]
  by_cases h : i < l.eventCount_
  · rw [List.getElem?_range h, if_pos h]
    rfl
  · rw [List.getElem?_eq_none (by simp; omega), if_neg h]
    rfl

/-- C19. Bounded event list: for a list in any state reached by `clear` and
`addEvent` calls (a `clear` followed by the calls `addEvent(es[0])`, ...),
the count never exceeds `MaxEvents = 1024`; `addEvent` returns `kResultFalse`
exactly when the list already holds 1024 events, and then leaves the list as
it was; otherwise it returns `kResultOk`, stores the event at index `count`
(no other element changes) and increments the count; `getEvent(i)` for
`0 <= i < count` returns `kResultOk` and the i-th added event, and for any
other index returns `kResultFalse` and leaves the caller's event alone. -/
theorem bounded_event_list (l0 : MySimpleEventList) (es : List Event) (e : Event) :
    (l0.clear.addEvents es).getEventCount ≤ MaxEvents ∧
    (((l0.clear.addEvents es).addEvent e).1 = tresult.kResultFalse ↔
      (l0.clear.addEvents es).getEventCount = MaxEvents) ∧
    (((l0.clear.addEvents es).addEvent e).1 = tresult.kResultFalse →
      ((l0.clear.addEvents es).addEvent e).2 = l0.clear.addEvents es) ∧
    (((l0.clear.addEvents es).addEvent e).1 ≠ tresult.kResultFalse →
      ((l0.clear.addEvents es).addEvent e).1 = tresult.kResultOk ∧
      ((l0.clear.addEvents es).addEvent e).2.getEventCount =
        (l0.clear.addEvents es).getEventCount + 1 ∧
      ((l0.clear.addEvents es).addEvent e).2.events_
        (l0.clear.addEvents es).getEventCount = e ∧
      ∀ i, i ≠ (l0.clear.addEvents es).getEventCount →
        ((l0.clear.addEvents es).addEvent e).2.events_ i =
          (l0.clear.addEvents es).events_ i) ∧
    (l0.clear.addEvents es).toList = es.take MaxEvents ∧
    (∀ (i : Int) (e0 : Event), 0 ≤ i → i < ((l0.clear.addEvents es).getEventCount : Int) →
      es[i.toNat]? = some ((l0.clear.addEvents es).getEvent i e0).2 ∧
      ((l0.clear.addEvents es).getEvent i e0).1 = tresult.kResultOk) ∧
    (∀ (i : Int) (e0 : Event), (i < 0 ∨ ((l0.clear.addEvents es).getEventCount : Int) ≤ i) →
      (l0.clear.addEvents es).getEvent i e0 = (tresult.kResultFalse, e0)) := by
  obtain ⟨hle, hlist⟩ := addEvents_spec es l0.clear (by simp [clear])
  rw [toList_clear, List.nil_append] at hlist
  refine ⟨hle, ?_, ?_, ?_, hlist, ?_, ?_⟩
  · unfold addEvent getEventCount
    by_cases h : (l0.clear.addEvents es).eventCount_ ≥ MaxEvents
    · simp only [h, if_true, true_iff]
      omega
    · simp only [h, if_false]
      constructor
      · intro hk
        exact absurd hk (by decide)
      · intro hk
        omega
  · intro hf
    unfold addEvent at hf ⊢
    by_cases h : (l0.clear.addEvents es).eventCount_ ≥ MaxEvents
    · simp [h]
    · simp [h] at hf
  · intro hne
    have hlt : (l0.clear.addEvents es).eventCount_ < MaxEvents := by
      by_contra hge
      apply hne
      rw [addEvent_of_ge _ e (by omega)]
    have hnge : ¬ (l0.clear.addEvents es).eventCount_ ≥ MaxEvents := by omega
    unfold addEvent getEventCount
    simp only [hnge, if_false, Function.update_same, true_and]
    intro i hi
    exact Function.update_noteq hi _ _
  · intro i e0 h0 hlt
    unfold getEventCount at hlt
    have hcond : ¬ (i < 0 ∨ i ≥ ((l0.clear.addEvents es).eventCount_ : Int)) := by omega
    have hnat : i.toNat < (l0.clear.addEvents es).eventCount_ := by omega
    simp only [getEvent, hcond, if_false, and_true]
    have h1 := getElem?_toList (l0.clear.addEvents es) i.toNat
    rw [if_pos hnat, hlist, List.getElem?_take] at h1
    rw [← h1, if_pos (by omega)]
  · intro i e0 h
    unfold getEventCount at h
    have hcond : i < 0 ∨ i ≥ ((l0.clear.addEvents es).eventCount_ : Int) := by omega
    simp only [getEvent, hcond, if_true]

end MySimpleEventList

/-! ## The statements at concrete inputs -/

namespace AppMain

open SpscQueue Examples

theorem drain_fills_stage0_list_witness :
    (queuedApp.vst3Plugins_.map (fun p => p.eventQueue_) =
      queuedHist.map (fun ops => (exec Vst3Plugin.EventQueueSize ops).queue)) ∧
    (Capacity Vst3Plugin.EventQueueSize ≤ 4097) ∧
    ∃ (plugins : List (Vst3Plugin Int)) (inpList : MySimpleEventList)
      (app1 : AppMain Int) (dest1 : Nat → Int),
      drainPlugins 4097 queuedApp.vst3Plugins_ (queuedApp.pingPongEventLists_ 0).clear =
        some (plugins, inpList) ∧
      audioThreadAppRefill 4097 queuedApp (fun _ => 0) 2 2 48000 = some (app1, dest1) ∧
      app1.vst3Plugins_ = plugins ∧
      (∀ p ∈ plugins, p.eventQueue_.readIndex_ = p.eventQueue_.writeIndex_) ∧
      ((entryState queuedApp 2 2 inpList).pingPongEventLists_
          (entryState queuedApp 2 2 inpList).inpEvents).toList =
        [noteOn60, noteOff60, noteOn48] := by
  obtain ⟨ps, l, a, d, h1, h2, h3, _, h5, h6⟩ :=
    drain_fills_stage0_list queuedApp queuedHist rfl 4097 (by decide) (fun _ => 0) 2 2 48000
  exact ⟨rfl, by decide, ps, l, a, d, h1, h2, h3, fun p hp => (h5 p hp).1,
    h6.trans (by decide)⟩

theorem generator_adds_effect_replaces_witness :
    (2 * 2 < 2 ^ 32) ∧ (1 < [unitOne, unitTwo].length) ∧ (3 < 2 * 2) ∧
    (chainStateAt twoUnitApp 2 2 48000 [unitOne, unitTwo]
        (entryState twoUnitApp 2 2 MySimpleEventList.init) (1 + 1)).pingPongAudioBuffers_
      (chainStateAt twoUnitApp 2 2 48000 [unitOne, unitTwo]
        (entryState twoUnitApp 2 2 MySimpleEventList.init) (1 + 1)).inpPtr 3 = 2 + 1 :=
  ⟨by norm_num, by decide, by norm_num,
    (generator_adds_effect_replaces twoUnitApp 2 2 48000 [unitOne, unitTwo]
      MySimpleEventList.init (by norm_num) 1 (by decide) 3 (by norm_num)).trans (by decide)⟩

theorem next_inbound_events_witness :
    (1 < [unitOne, arpUnit].length) ∧
    arpUnit.hasEventOutput_ = true ∧
    ((chainStateAt (mkApp [unitOne, arpUnit]) 2 2 48000 [unitOne, arpUnit]
        (entryState (mkApp [unitOne, arpUnit]) 2 2 MySimpleEventList.init)
        (1 + 1)).pingPongEventLists_
      (chainStateAt (mkApp [unitOne, arpUnit]) 2 2 48000 [unitOne, arpUnit]
        (entryState (mkApp [unitOne, arpUnit]) 2 2 MySimpleEventList.init)
        (1 + 1)).inpEvents).toList = [noteOn60] :=
  ⟨by decide, rfl,
    ((next_inbound_events (mkApp [unitOne, arpUnit]) 2 2 48000 [unitOne, arpUnit]
      MySimpleEventList.init 1 (by decide)
      (fun j _ hjk _ => by
        obtain rfl : j = 0 := by omega
        rfl)).1 rfl).trans (by decide)⟩

theorem interleave_planar_witness :
    (twoUnitApp.vst3Plugins_.map (fun p => p.eventQueue_) =
      [[], []].map (fun ops => (exec Vst3Plugin.EventQueueSize ops).queue)) ∧
    (Capacity Vst3Plugin.EventQueueSize ≤ 4097) ∧ (3 * 2 < 2 ^ 32) ∧
    ∃ (plugins : List (Vst3Plugin Int)) (inpList : MySimpleEventList)
      (app1 : AppMain Int) (dest1 : Nat → Int),
      audioThreadAppRefill 4097 twoUnitApp (fun _ => 0) 2 3 48000 = some (app1, dest1) ∧
      dest1 (2 * 2 + 1) =
        (chainStateAt twoUnitApp 2 3 48000 plugins
            (entryState twoUnitApp 2 3 inpList) plugins.length).pingPongAudioBuffers_
          (chainStateAt twoUnitApp 2 3 48000 plugins
            (entryState twoUnitApp 2 3 inpList) plugins.length).inpPtr
          (1 * 3 + 2) := by
  obtain ⟨ps, l, a, d, _, h2, h3, _⟩ :=
    interleave_planar twoUnitApp [[], []] rfl 4097 (by decide) (fun _ => 0) 2 3 48000
      (by norm_num)
  exact ⟨rfl, by decide, by norm_num, ps, l, a, d, h2, h3 2 (by norm_num) 1 (by norm_num)⟩

theorem ppq_advance_witness :
    (twoUnitApp.vst3Plugins_.map (fun p => p.eventQueue_) =
      [[], []].map (fun ops => (exec Vst3Plugin.EventQueueSize ops).queue)) ∧
    (Capacity Vst3Plugin.EventQueueSize ≤ 4097) ∧ ((48000 : ℚ) ≠ 0) ∧
    ∃ (app1 : AppMain Int) (dest1 : Nat → Int),
      audioThreadAppRefill 4097 twoUnitApp (fun _ => 0) 2 512 48000 = some (app1, dest1) ∧
      app1.currentPpq_ - twoUnitApp.currentPpq_ =
        ((512 : Nat) : ℚ) * twoUnitApp.tempo_ / 60 / 48000 ∧
      app1.tempo_ = twoUnitApp.tempo_ := by
  obtain ⟨⟨a, d, h1, h2, _, h4⟩, _, _⟩ :=
    ppq_advance twoUnitApp [[], []] rfl 4097 (by decide) (fun _ => 0) 2 512 48000
      (by norm_num)
  exact ⟨rfl, by decide, by norm_num, a, d, h1, h2, h4⟩

theorem two_generators_sum_witness :
    ((mkApp [unitThree, unitThree]).vst3Plugins_ = [unitThree, unitThree]) ∧
    unitThree.isEffect_ = false ∧
    (∀ pd iChannel i, (unitThree.vstAudioProcessor_ pd).outputs iChannel i = 3) ∧
    ((mkApp [unitThree, unitThree]).vst3Plugins_.map (fun p => p.eventQueue_) =
      [[], []].map (fun ops => (exec Vst3Plugin.EventQueueSize ops).queue)) ∧
    (Capacity Vst3Plugin.EventQueueSize ≤ 4097) ∧ (2 * 2 < 2 ^ 32) ∧
    ∃ (app1 : AppMain Int) (dest1 : Nat → Int),
      audioThreadAppRefill 4097 (mkApp [unitThree, unitThree]) (fun _ => 0) 2 2 48000 =
        some (app1, dest1) ∧
      ∀ j, j < 2 * 2 → dest1 j = 3 + 3 :=
  ⟨rfl, rfl, fun _ _ _ => rfl, rfl, by decide, by norm_num,
    two_generators_sum (mkApp [unitThree, unitThree]) unitThree unitThree rfl rfl rfl 3
      (fun _ _ _ => rfl) (fun _ _ _ => rfl) [[], []] rfl 4097 (by decide) (fun _ => 0) 2 2
      48000 (by norm_num)⟩

theorem silent_generator_through_identity_witness :
    ((mkApp [silentUnit, passThrough SpscQueue.empty]).vst3Plugins_ =
      [silentUnit, passThrough SpscQueue.empty]) ∧
    silentUnit.isEffect_ = false ∧ (passThrough SpscQueue.empty).isEffect_ = true ∧
    (Capacity Vst3Plugin.EventQueueSize ≤ 4097) ∧ (2 * 2 < 2 ^ 32) ∧
    (2 ≤ (mkApp [silentUnit, passThrough SpscQueue.empty]).maxChannels_) ∧
    ∃ (app1 : AppMain Int) (dest1 : Nat → Int),
      audioThreadAppRefill 4097 (mkApp [silentUnit, passThrough SpscQueue.empty])
        (fun _ => 7) 2 2 48000 = some (app1, dest1) ∧
      ∀ j, j < 2 * 2 → dest1 j = 0 :=
  ⟨rfl, rfl, rfl, by decide, by norm_num, by decide,
    silent_generator_through_identity (mkApp [silentUnit, passThrough SpscQueue.empty])
      silentUnit (passThrough SpscQueue.empty) rfl rfl rfl
      (fun _ _ _ => rfl)
      (fun pd bus chans h1 h2 _ _ _ _ => by simp [passThrough, h1, h2])
      [[], []] rfl 4097 (by decide) (fun _ => 7) 2 2 48000 (by norm_num) (by decide)⟩

theorem outbound_empty_at_render_witness :
    (∀ p ∈ [unitOne, arpUnit], p.hasEventOutput_ = false →
      ∀ pd, (p.vstAudioProcessor_ pd).outputEvents = []) ∧
    (1 < [unitOne, arpUnit].length) ∧
    ((chainStateAt (mkApp [unitOne, arpUnit]) 2 2 48000 [unitOne, arpUnit]
        (entryState (mkApp [unitOne, arpUnit]) 2 2 MySimpleEventList.init)
        1).pingPongEventLists_
      (chainStateAt (mkApp [unitOne, arpUnit]) 2 2 48000 [unitOne, arpUnit]
        (entryState (mkApp [unitOne, arpUnit]) 2 2 MySimpleEventList.init)
        1).outEvents).getEventCount = 0 := by
  have hq : ∀ p ∈ [unitOne, arpUnit], p.hasEventOutput_ = false →
      ∀ pd, (p.vstAudioProcessor_ pd).outputEvents = [] := by
    intro p hp hE pd
    simp only [List.mem_cons, List.mem_singleton, List.not_mem_nil, or_false] at hp
    rcases hp with rfl | rfl
    · rfl
    · exact absurd hE (by decide)
  exact ⟨hq, by decide,
    (outbound_empty_at_render (mkApp [unitOne, arpUnit]) 2 2 48000 [unitOne, arpUnit]
      MySimpleEventList.init hq 1 (by decide)).1⟩

end AppMain

namespace Vst3Plugin

open SpscQueue Examples

theorem press_release_events_witness :
    (unitOne.keyMap = initialKeyMap) ∧
    ((90, (⟨48, false⟩ : Key)) ∈ initialKeyMap) ∧
    (∀ e ∈ initialKeyMap, keyDown (allKeysUp e.1) = false) ∧
    (∀ e ∈ initialKeyMap, keyDown (onlyKeyDown 90 e.1) = decide (e.1 = 90)) ∧
    (keyScans ([allKeysUp] ++ [onlyKeyDown 90, onlyKeyDown 90] ++ [allKeysUp, allKeysUp])
        unitOne).2 =
      [noteOn48, Vst3Plugin.keyEvent ⟨48, false⟩] := by
  have hup : ∀ e ∈ initialKeyMap, keyDown (allKeysUp e.1) = false := by decide
  have hdown : ∀ e ∈ initialKeyMap, keyDown (onlyKeyDown 90 e.1) = decide (e.1 = 90) := by
    decide
  have h := press_release_events unitOne rfl 90 48 (by decide) [allKeysUp]
    [onlyKeyDown 90, onlyKeyDown 90] [allKeysUp, allKeysUp] (by simp) (by simp)
    (by
      intro poll hp
      simp only [List.mem_singleton] at hp
      subst hp
      exact hup)
    (by
      intro poll hp
      simp only [List.mem_cons, List.mem_singleton, List.not_mem_nil, or_false, or_self] at hp
      subst hp
      exact hdown)
    (by
      intro poll hp
      simp only [List.mem_cons, List.mem_singleton, List.not_mem_nil, or_false, or_self] at hp
      subst hp
      exact hup)
    [] rfl
  exact ⟨rfl, by decide, hup, hdown, h.1⟩

end Vst3Plugin

/-! ## Buffer index safety -/

namespace AppMain

variable {S : Type}

open Examples

theorem bufSize_le (nSamples nChannels : Nat) :
    bufSize nSamples nChannels ≤ nSamples * nChannels :=
  Nat.mod_le _ _

theorem mem_channelIndices {nChannels nSamples j : Nat}
    (h : j ∈ channelIndices nChannels nSamples) : j < nSamples * nChannels := by
  simp only [channelIndices, List.mem_flatten, List.mem_map, List.mem_range] at h
  obtain ⟨l, ⟨iChannel, hc, rfl⟩, hj⟩ := h
  simp only [List.mem_map, List.mem_range] at hj
  obtain ⟨i, hi, rfl⟩ := hj
  have h1 : chanOffset nSamples iChannel ≤ iChannel * nSamples := Nat.mod_le _ _
  have h2 := planar_index_lt hc hi
  rw [Nat.mul_comm nChannels nSamples] at h2
  omega

theorem mem_interleaveSrcIndices {nChannels nSamples j : Nat}
    (h : j ∈ interleaveSrcIndices nChannels nSamples) : j < nSamples * nChannels := by
  simp only [interleaveSrcIndices, List.mem_flatten, List.mem_map, List.mem_range] at h
  obtain ⟨l, ⟨iSample, hs, rfl⟩, hj⟩ := h
  simp only [List.mem_map, List.mem_range] at hj
  obtain ⟨iChannel, hc, rfl⟩ := hj
  have h1 : (iChannel * nSamples + iSample) % 2 ^ 32 ≤ iChannel * nSamples + iSample :=
    Nat.mod_le _ _
  have h2 := planar_index_lt hc hs
  rw [Nat.mul_comm nChannels nSamples] at h2
  omega

theorem mem_interleaveDestIndices {nChannels nSamples j : Nat}
    (h : j ∈ interleaveDestIndices nChannels nSamples) : j < nSamples * nChannels := by
  simp only [interleaveDestIndices, List.mem_flatten, List.mem_map, List.mem_range] at h
  obtain ⟨l, ⟨iSample, hs, rfl⟩, hj⟩ := h
  simp only [List.mem_map, List.mem_range] at hj
  obtain ⟨iChannel, hc, rfl⟩ := hj
  have h1 : (iSample * nChannels + iChannel) % 2 ^ 32 ≤ iSample * nChannels + iChannel :=
    Nat.mod_le _ _
  have h2 := planar_index_lt hs hc
  omega

theorem mem_stageAccesses {nChannels nSamples : Nat} {st : ChainState S} {p : Vst3Plugin S}
    {a : Fin 2 × Nat} (h : a ∈ stageAccesses nChannels nSamples st p) :
    a.2 < nSamples * nChannels := by
  unfold stageAccesses at h
  rw [List.mem_append, List.mem_append] at h
  rcases h with (h | h) | h
  · obtain ⟨i, hi, rfl⟩ := List.mem_map.mp h
    exact mem_channelIndices hi
  · obtain ⟨i, hi, rfl⟩ := List.mem_map.mp h
    exact mem_channelIndices hi
  · by_cases hE : p.isEffect_ = true
    · rw [if_neg (not_not.mpr hE)] at h
      exact absurd h (List.not_mem_nil a)
    · rw [if_pos hE] at h
      simp only [List.mem_flatten, List.mem_map, List.mem_range] at h
      obtain ⟨l, ⟨i, hi, rfl⟩, ha⟩ := h
      have hb := bufSize_le nSamples nChannels
      simp only [List.mem_cons, List.mem_singleton, List.not_mem_nil, or_false] at ha
      rcases ha with rfl | rfl <;> exact lt_of_lt_of_le hi hb

theorem mem_chainAccesses [Add S] (app : AppMain S) (nChannels nSamples : Nat)
    (sampleRate : ℚ) (plugins : List (Vst3Plugin S)) :
    ∀ (st : ChainState S) (a : Fin 2 × Nat),
      a ∈ chainAccesses app nChannels nSamples sampleRate plugins st →
      a.2 < nSamples * nChannels := by
  induction plugins with
  | nil =>
    intro st a h
    simp only [chainAccesses, List.mem_map] at h
    obtain ⟨i, hi, rfl⟩ := h
    exact mem_interleaveSrcIndices hi
  | cons p ps ih =>
    intro st a h
    simp only [chainAccesses, List.mem_append] at h
    rcases h with h | h
    · exact mem_stageAccesses h
    · exact ih _ a h

/-- The buffers have the length `maxSamples_ * maxChannels_` exactly when the
`unsigned` product in `resize` does not wrap. -/
theorem audioBufferLength_eq_iff (app : AppMain S) :
    audioBufferLength app = app.maxSamples_ * app.maxChannels_ ↔
      app.maxSamples_ * app.maxChannels_ < 2 ^ 32 := by
  unfold audioBufferLength
  constructor
  · intro h
    rw [← h]
    exact Nat.mod_lt _ (by norm_num)
  · exact Nat.mod_eq_of_lt

/-- When the product wraps the buffers are shorter: for `maxSamples_ = 2 ^ 31`
and two channels `resize` gets 0. -/
theorem audioBufferLength_wraps :
    audioBufferLength { twoUnitApp with maxSamples_ := 2147483648 } = 0 := by
  decide

/-- C21. Buffer index safety: when `nSamples <= maxSamples_`,
`nChannels <= maxChannels_`, the destination span has length
`nSamples * nChannels` and the ping-pong buffers have length
`maxSamples_ * maxChannels_`, then for every chain every index
`audioThreadAppRefill` uses into the ping-pong audio buffers, into
`inpPtrs_`/`outPtrs_` (length `maxChannels_`) and into the destination span is
within bounds; `iChannel * nSamples + iSample < nSamples * nChannels` for all
`iSample < nSamples`, `iChannel < nChannels`; and in every stage the input and
the output buffer are different buffers. -/
theorem buffer_indices_in_bounds [Zero S] [Add S] (app : AppMain S)
    (nChannels nSamples : Nat) (sampleRate : ℚ) (plugins : List (Vst3Plugin S))
    (inpList : MySimpleEventList) (destLength : Nat)
    (hS : nSamples ≤ app.maxSamples_) (hC : nChannels ≤ app.maxChannels_)
    (hdest : destLength = nSamples * nChannels)
    (hlen : audioBufferLength app = app.maxSamples_ * app.maxChannels_) :
    (∀ a ∈ refillAccesses app nChannels nSamples sampleRate plugins inpList,
      a.2 < audioBufferLength app) ∧
    (∀ iChannel ∈ channelPtrIndices nChannels, iChannel < channelPtrsLength app) ∧
    (∀ j ∈ interleaveDestIndices nChannels nSamples, j < destLength) ∧
    (∀ iSample, iSample < nSamples → ∀ iChannel, iChannel < nChannels →
      iChannel * nSamples + iSample < nSamples * nChannels) ∧
    (∀ k,
      (chainStateAt app nChannels nSamples sampleRate plugins
        (entryState app nChannels nSamples inpList) k).inpPtr ≠
      (chainStateAt app nChannels nSamples sampleRate plugins
        (entryState app nChannels nSamples inpList) k).outPtr) := by
  have hprod : nSamples * nChannels ≤ app.maxSamples_ * app.maxChannels_ :=
    Nat.mul_le_mul hS hC
  refine ⟨?_, ?_, ?_, ?_, ?_⟩
  · intro a ha
    rw [hlen]
    simp only [refillAccesses, List.mem_append, List.mem_map, List.mem_range] at ha
    rcases ha with ⟨i, hi, rfl⟩ | ha
    · exact lt_of_lt_of_le (lt_of_lt_of_le hi (bufSize_le nSamples nChannels)) hprod
    · exact lt_of_lt_of_le
        (mem_chainAccesses app nChannels nSamples sampleRate plugins _ a ha) hprod
  · intro iChannel hi
    simp only [channelPtrIndices, List.mem_range] at hi
    exact lt_of_lt_of_le hi hC
  · intro j hj
    rw [hdest]
    exact mem_interleaveDestIndices hj
  · intro iSample hs iChannel hc
    have h := planar_index_lt hc hs
    rw [Nat.mul_comm nChannels nSamples] at h
    exact h
  · intro k
    exact (chainStateAt_distinct app nChannels nSamples sampleRate plugins inpList k).1

theorem buffer_indices_in_bounds_witness :
    (3 ≤ twoUnitApp.maxSamples_) ∧ (2 ≤ twoUnitApp.maxChannels_) ∧ (6 = 3 * 2) ∧
    (audioBufferLength twoUnitApp = twoUnitApp.maxSamples_ * twoUnitApp.maxChannels_) ∧
    (∀ a ∈ refillAccesses twoUnitApp 2 3 48000 [unitOne, passThrough SpscQueue.empty]
        MySimpleEventList.init, a.2 < audioBufferLength twoUnitApp) ∧
    (∀ iChannel ∈ channelPtrIndices 2, iChannel < channelPtrsLength twoUnitApp) ∧
    (∀ j ∈ interleaveDestIndices 2 3, j < 6) := by
  obtain ⟨h1, h2, h3, _, _⟩ :=
    buffer_indices_in_bounds twoUnitApp 2 3 48000 [unitOne, passThrough SpscQueue.empty]
      MySimpleEventList.init 6 (by decide) (by decide) (by decide) (by decide)
  exact ⟨by decide, by decide, by decide, by decide, h1, h2, h3⟩

end AppMain

end MinimalVst3Host
